import Mathlib

/-!
# CSV ingestion handler (`project-01-s3-lambda-dynamodb-sns/lambda/index.mjs`)

A shallow embedding of the `handler` function and of the JavaScript built-ins it
relies on (`String.prototype.trim`, `split`, `replace(/\+/g, ' ')`,
`decodeURIComponent`, property assignment on a plain object).

Strings are modelled as lists of Unicode scalar values: a character outside
the basic plane is one element, not a surrogate pair, and lone surrogates are
not represented.  None of the characters the handler looks for (`,`, line
feed, `+`, `%`, hexadecimal digits, whitespace) is affected by this choice.

The three service clients and the clock are external: their outcomes are
supplied by a `World` record, and the handler returns, next to its result, the
ordered trace of the calls it made on them.  The fetched text is what
`streamToString` returns for the body of the object.  `console.log` and
`console.error` calls have no influence on control flow and are not part of
the trace.
-/

namespace CsvLambda

/-- JavaScript string, as a list of Unicode scalar values. -/
abbrev Str := List Char

/-! ## String built-ins -/

/-- Characters removed by `String.prototype.trim`: ECMAScript `WhiteSpace`
(TAB, VT, FF, ZWNBSP and every code point of category `Zs`) and `LineTerminator`
(LF, CR, LS, PS). -/
def isWhiteSpace (c : Char) : Bool :=
  let n := c.toNat
  n == 0x09 || n == 0x0A || n == 0x0B || n == 0x0C || n == 0x0D || n == 0x20 ||
  n == 0xA0 || n == 0x1680 || (0x2000 ≤ n && n ≤ 0x200A) || n == 0x2028 ||
  n == 0x2029 || n == 0x202F || n == 0x205F || n == 0x3000 || n == 0xFEFF

/-- Model of `String.prototype.trim`. -/
def trim (s : Str) : Str :=
  (s.dropWhile isWhiteSpace).rdropWhile isWhiteSpace

/-- Model of `String.prototype.split(sep)` for a one-character separator: the
result always has one more element than there are occurrences of `sep`
(so `''.split(',')` is `['']`). -/
def split (sep : Char) : Str → List Str
  | [] => [[]]
  | c :: cs =>
    if c = sep then [] :: split sep cs
    else
      match split sep cs with
      | [] => [[c]]
      | l :: ls => (c :: l) :: ls

/-- Model of `Array.prototype.join(sep)`. -/
def join (sep : Str) : List Str → Str
  | [] => []
  | [s] => s
  | s :: t :: rest => s ++ sep ++ join sep (t :: rest)

/-- Model of `key.replace(/\+/g, ' ')`: every `+` becomes a space. -/
def replacePlus (s : Str) : Str :=
  s.map (fun c => if c = '+' then ' ' else c)

/-- Decimal rendering of a number in a template literal. -/
def numToStr (n : Nat) : Str := (Nat.repr n).toList

/-! ## Row objects -/

/-- A plain JavaScript object whose values are strings: its own properties,
each name once, listed in the order in which they were first assigned.  The
order is only a representation (JavaScript enumerates integer-like names
first); the claims use lookup and membership. -/
abbrev Row := List (Str × Str)

/-- Property name with an accessor on `Object.prototype`. -/
def protoKey : Str := "__proto__".toList

/-- Replace the value of an existing own property, or append a new one. -/
def Row.assign : Row → Str → Str → Row
  | [], k, v => [(k, v)]
  | (k', v') :: r, k, v => if k' = k then (k', v) :: r else (k', v') :: Row.assign r k v

/-- Model of `row[k] = v` on an object created by `{}` for a string `v`.
Assigning to `__proto__` runs the inherited setter, which ignores a value that
is neither an object nor `null`, so no own property is created. -/
def Row.set (r : Row) (k v : Str) : Row :=
  if k = protoKey then r else Row.assign r k v

/-- Own property lookup. -/
def Row.get (r : Row) (k : Str) : Option Str :=
  (r.find? (fun p => p.1 = k)).map Prod.snd

/-- Own property names. -/
def Row.keys (r : Row) : List Str := r.map Prod.fst

/-- Model of `values[index] || ''`. -/
def valueAt (values : List Str) (index : Nat) : Str :=
  match values[index]? with
  | some v => v
  | none => []

/-- The body of `headers.forEach((header, index) => row[header] = values[index] || '')`,
started at position `index`. -/
def forEachHeader (values : List Str) : List Str → Nat → Row → Row
  | [], _, row => row
  | header :: rest, index, row =>
    forEachHeader values rest (index + 1) (row.set header (valueAt values index))

/-- The header names, `lines[0].split(',').map(h => h.trim())` (line 41). -/
def parseHeaders (line : Str) : List Str := (split ',' line).map trim

/-- The fields of a data line, `lines[i].split(',').map(v => v.trim())` (line 49). -/
def parseValues (line : Str) : List Str := (split ',' line).map trim

/-- The object `row` after the `forEach`, before the metadata is added. -/
def buildRow (headers : List Str) (line : Str) : Row :=
  forEachHeader (parseValues line) headers 0 []

/-- The lines of the file, `fileContent.trim().split('\n')` (line 40). -/
def splitLines (fileContent : Str) : List Str := split '\n' (trim fileContent)

/-! ## `decodeURIComponent` -/

/-- Value of a hexadecimal digit, either case. -/
def hexVal (c : Char) : Option Nat :=
  let n := c.toNat
  if 0x30 ≤ n ∧ n ≤ 0x39 then some (n - 0x30)
  else if 0x41 ≤ n ∧ n ≤ 0x46 then some (n - 0x41 + 10)
  else if 0x61 ≤ n ∧ n ≤ 0x66 then some (n - 0x61 + 10)
  else none

/-- A multi-octet UTF-8 sequence being read: `need` continuation octets are
still expected, `acc` holds the bits read so far, `total` is the length of the
sequence announced by its first octet. -/
structure Pending where
  need : Nat
  acc : Nat
  total : Nat
deriving DecidableEq, Repr

/-- Whether `cp`, read from a sequence of `total` octets, is a valid UTF-8
encoded code point: shortest form, no surrogate, at most `0x10FFFF`. -/
def validCodePoint (total cp : Nat) : Bool :=
  if total = 2 then 0x80 ≤ cp
  else if total = 3 then 0x800 ≤ cp && !(0xD800 ≤ cp && cp ≤ 0xDFFF)
  else 0x10000 ≤ cp && cp ≤ 0x10FFFF

/-- What reading one octet does to the decoder. -/
inductive OctetStep where
  | emit (c : Char)
  | more (p : Pending)
  | bad
deriving DecidableEq, Repr

/-- Reading one octet: outside a sequence it is an ASCII character or the
first octet of a sequence of 2, 3 or 4; inside a sequence it must be a
continuation octet `10xxxxxx`, and the last one completes a code point, which
must be valid. -/
def onOctet (st : Option Pending) (octet : Nat) : OctetStep :=
  match st with
  | none =>
    if octet < 0x80 then .emit (Char.ofNat octet)
    else if 0xC0 ≤ octet ∧ octet < 0xE0 then .more ⟨1, octet % 32, 2⟩
    else if 0xE0 ≤ octet ∧ octet < 0xF0 then .more ⟨2, octet % 16, 3⟩
    else if 0xF0 ≤ octet ∧ octet < 0xF8 then .more ⟨3, octet % 8, 4⟩
    else .bad
  | some p =>
    if 0x80 ≤ octet ∧ octet < 0xC0 then
      let acc := p.acc * 64 + octet % 64
      if p.need ≤ 1 then
        if validCodePoint p.total acc then .emit (Char.ofNat acc) else .bad
      else .more ⟨p.need - 1, acc, p.total⟩
    else .bad

/-- The octet written by the two hexadecimal digits of an escape. -/
def octetOf (h1 h2 : Char) : Option Nat :=
  match hexVal h1, hexVal h2 with
  | some a, some b => some (16 * a + b)
  | _, _ => none

/-- End of the string: an unfinished sequence is an error. -/
def finish (st : Option Pending) : Option Str :=
  match st with
  | none => some []
  | some _ => none

/-- A character that is not `%`: an error inside a sequence, otherwise it is
put in front of the decoded rest. -/
def onLiteral (st : Option Pending) (ch : Char) (tail : Option Str) : Option Str :=
  match st with
  | none => tail.map (ch :: ·)
  | some _ => none

/-- The ECMAScript `Decode` operation with an empty reserved set, reading the
string one escape `%XY` at a time; `none` stands for a thrown `URIError`.  The
function `lit` is applied to every character that is not part of an escape
(`decodeURIComponent` itself uses the identity). -/
def decodeWith (lit : Char → Char) : Option Pending → Str → Option Str
  | st, [] => finish st
  | st, [c] => if c = '%' then none else onLiteral st (lit c) (decodeWith lit none [])
  | st, [c, d] => if c = '%' then none else onLiteral st (lit c) (decodeWith lit none [d])
  | st, c :: h1 :: h2 :: rest1 =>
    if c = '%' then
      match octetOf h1 h2 with
      | none => none
      | some octet =>
        match onOctet st octet with
        | .emit ch => (decodeWith lit none rest1).map (ch :: ·)
        | .more p => decodeWith lit (some p) rest1
        | .bad => none
    else onLiteral st (lit c) (decodeWith lit none (h1 :: h2 :: rest1))

/-- Model of `decodeURIComponent`; `none` stands for a thrown `URIError`. -/
def decodeURIComponent (s : Str) : Option Str := decodeWith id none s

/-! ## Events, errors and the outside world -/

/-- A thrown JavaScript error. -/
structure JsError where
  name : Str
  message : Str
deriving DecidableEq, Repr

/-- The object `event.Records[0].s3.bucket`. -/
structure S3Bucket where
  name : Option Str
deriving DecidableEq, Repr

/-- The object `event.Records[0].s3.object`. -/
structure S3Object where
  key : Option Str
deriving DecidableEq, Repr

/-- The object `event.Records[0].s3`. -/
structure S3Entity where
  bucket : Option S3Bucket
  object : Option S3Object
deriving DecidableEq, Repr

/-- One element of `event.Records`. -/
structure EventRecord where
  s3 : Option S3Entity
deriving DecidableEq, Repr

/-- The trigger event; every property may be missing (`undefined`). -/
structure Event where
  Records : Option (List EventRecord)
deriving DecidableEq, Repr

/-- A call made on one of the three service clients. -/
inductive Call where
  | getObject (bucket : Option Str) (key : Str)
  | put (tableName : Str) (item : Row)
  | publish (topicArn subject message : Str)
deriving DecidableEq, Repr

/-- The environment of one invocation.  Each service answers as a function of
the calls made so far and of the arguments of the current call; `none` from
`putItem` and `publish` means that the call succeeded.  `getObject` stands for
`s3Client.send(getObjectCommand)` followed by `streamToString(response.Body)`. -/
structure World where
  DYNAMODB_TABLE : Option Str
  SNS_TOPIC_ARN : Option Str
  getObject : Option Str → Str → Except JsError Str
  putItem : List Call → Str → Row → Option JsError
  publish : List Call → Str → Str → Str → Option JsError
  now : List Call → Str

/-- Model of `process.env.X || fallback`. -/
def envOr (v : Option Str) (fallback : Str) : Str :=
  match v with
  | some s => if s = [] then fallback else s
  | none => fallback

/-- Line 13: `const TABLE_NAME = process.env.DYNAMODB_TABLE || 'CustomerData'`. -/
def TABLE_NAME (w : World) : Str := envOr w.DYNAMODB_TABLE "CustomerData".toList

/-- Line 14: `const SNS_TOPIC_ARN = process.env.SNS_TOPIC_ARN || ''`. -/
def SNS_TOPIC_ARN (w : World) : Str := envOr w.SNS_TOPIC_ARN []

/-- The `TypeError` raised by reading property `prop` of `undefined`. -/
def typeError (prop : String) : JsError :=
  ⟨"TypeError".toList,
   ("Cannot read properties of undefined (reading '" ++ prop ++ "')").toList⟩

/-- The `URIError` raised by `decodeURIComponent`. -/
def uriError : JsError := ⟨"URIError".toList, "URI malformed".toList⟩

/-- Line 25: reading `event.Records[0].s3.bucket.name`. -/
def readBucket (event : Event) : Except JsError (Option Str) :=
  match event.Records with
  | none => .error (typeError "0")
  | some [] => .error (typeError "s3")
  | some (r :: _) =>
    match r.s3 with
    | none => .error (typeError "bucket")
    | some s3 =>
      match s3.bucket with
      | none => .error (typeError "name")
      | some b => .ok b.name

/-- Line 26: reading `event.Records[0].s3.object.key`, up to the call of
`replace` on it. -/
def readRawKey (event : Event) : Except JsError Str :=
  match event.Records with
  | some (r :: _) =>
    match r.s3 with
    | some s3 =>
      match s3.object with
      | none => .error (typeError "key")
      | some o =>
        match o.key with
        | none => .error (typeError "replace")
        | some k => .ok k
    | none => .error (typeError "bucket")
  | some [] => .error (typeError "s3")
  | none => .error (typeError "0")

/-- Line 26: `decodeURIComponent(rawKey.replace(/\+/g, ' '))`. -/
def decodeKey (rawKey : Str) : Except JsError Str :=
  match decodeURIComponent (replacePlus rawKey) with
  | some k => .ok k
  | none => .error uriError

/-! ## The row loop -/

/-- The variables `processedCount` and `errors`, and the calls made so far. -/
structure Progress where
  processedCount : Nat
  errors : List Str
  calls : List Call
deriving DecidableEq, Repr

/-- The item written for one data line (lines 49-59): the parsed row with the
two metadata fields assigned last. -/
def makeItem (headers : List Str) (key : Str) (timestamp : Str) (line : Str) : Row :=
  ((buildRow headers line).set "uploadedAt".toList timestamp).set "sourceFile".toList key

/-- The message pushed on `errors` for row `i` (line 73). -/
def rowErrorMsg (i : Nat) (rowError : JsError) : Str :=
  "Error processing row ".toList ++ numToStr i ++ ": ".toList ++ rowError.message

/-- One iteration of the loop of lines 47-77, for `lines[i] = line`. -/
def processRow (w : World) (headers : List Str) (key : Str) (i : Nat) (line : Str)
    (st : Progress) : Progress :=
  let item := makeItem headers key (w.now st.calls) line
  let calls := st.calls ++ [Call.put (TABLE_NAME w) item]
  match w.putItem st.calls (TABLE_NAME w) item with
  | none => ⟨st.processedCount + 1, st.errors, calls⟩
  | some rowError => ⟨st.processedCount, st.errors ++ [rowErrorMsg i rowError], calls⟩

/-- The loop `for (let i = 1; i < lines.length; i++)`, entered at index `i` with
the lines from `lines[i]` on. -/
def rowLoop (w : World) (headers : List Str) (key : Str) :
    Nat → List Str → Progress → Progress
  | _, [], st => st
  | i, line :: rest, st => rowLoop w headers key (i + 1) rest (processRow w headers key i line st)

/-! ## Notifications and the result -/

/-- Rendering of `bucket` in a template literal. -/
def showBucket (bucket : Option Str) : Str :=
  match bucket with
  | some b => b
  | none => "undefined".toList

/-- The template literal of lines 80-90. -/
def notificationMessage (key : Str) (bucket : Option Str) (processedCount : Nat)
    (errors : List Str) (timestamp : Str) : Str :=
  "\nCSV Processing Complete!\n\nFile: ".toList ++ key ++
  "\nBucket: ".toList ++ showBucket bucket ++
  "\nRecords Processed: ".toList ++ numToStr processedCount ++
  "\nErrors: ".toList ++ numToStr errors.length ++
  "\nTimestamp: ".toList ++ timestamp ++ "\n\n".toList ++
  (if errors.length > 0 then "Errors encountered:\n".toList ++ join "\n".toList errors
   else "All records processed successfully!".toList) ++
  "\n        ".toList

/-- Subject of the success notification (line 94). -/
def successSubject (key : Str) : Str := "CSV Processing: ".toList ++ key

/-- Subject of the failure notification (line 119). -/
def failureSubject : Str := "CSV Processing FAILED".toList

/-- Model of `v || 'unknown'` for a variable that is `undefined` or a string. -/
def orUnknown (v : Option Str) : Str :=
  match v with
  | some s => if s = [] then "unknown".toList else s
  | none => "unknown".toList

/-- The message of the failure notification (lines 111 and 120). -/
def failureMessage (error : JsError) (key bucket : Option Str) : Str :=
  "Error: ".toList ++ ("Fatal error processing CSV: ".toList ++ error.message) ++
  "\nFile: ".toList ++ orUnknown key ++ "\nBucket: ".toList ++ orUnknown bucket

/-- The object passed to `JSON.stringify` on line 103. -/
structure Summary where
  message : Str
  recordsProcessed : Nat
  errors : Nat
deriving DecidableEq, Repr

/-- The text `JSON.stringify` gives for a summary whose message needs no
escaping. -/
def Summary.stringify (s : Summary) : Str :=
  "\x7b\"message\":\"".toList ++ s.message ++ "\",\"recordsProcessed\":".toList ++
  numToStr s.recordsProcessed ++ ",\"errors\":".toList ++ numToStr s.errors ++ "\x7d".toList

/-- The value returned on the success path. -/
structure Response where
  statusCode : Nat
  body : Str
deriving DecidableEq, Repr

/-- The value returned on lines 101-108. -/
def successResponse (processedCount : Nat) (errors : List Str) : Response :=
  ⟨200, Summary.stringify ⟨"Processing complete".toList, processedCount, errors.length⟩⟩

/-! ## The handler -/

/-- State at the end of the `try` block: the calls made, the variables `bucket`
and `key` declared outside the block, and either the returned value or the
error that left the block. -/
structure TryResult where
  calls : List Call
  bucket : Option Str
  key : Option Str
  result : Except JsError Response

/-- The `try` block of lines 23-109. -/
def tryBlock (w : World) (event : Event) : TryResult :=
  match readBucket event with
  | .error e => ⟨[], none, none, .error e⟩
  | .ok bucket =>
    match readRawKey event with
    | .error e => ⟨[], bucket, none, .error e⟩
    | .ok rawKey =>
      match decodeKey rawKey with
      | .error e => ⟨[], bucket, none, .error e⟩
      | .ok key =>
        let fetched := [Call.getObject bucket key]
        match w.getObject bucket key with
        | .error e => ⟨fetched, bucket, some key, .error e⟩
        | .ok fileContent =>
          match splitLines fileContent with
          | [] => ⟨fetched, bucket, some key, .error (typeError "split")⟩
          | headerLine :: dataLines =>
            let headers := parseHeaders headerLine
            let st := rowLoop w headers key 1 dataLines ⟨0, [], fetched⟩
            let message :=
              notificationMessage key bucket st.processedCount st.errors (w.now st.calls)
            let calls := st.calls ++ [Call.publish (SNS_TOPIC_ARN w) (successSubject key) message]
            match w.publish st.calls (SNS_TOPIC_ARN w) (successSubject key) message with
            | some e => ⟨calls, bucket, some key, .error e⟩
            | none => ⟨calls, bucket, some key, .ok (successResponse st.processedCount st.errors)⟩

/-- What one invocation does: the calls made on the service clients, in order,
and the returned value or the error raised to the caller. -/
structure Run where
  calls : List Call
  result : Except JsError Response

/-- Model of `handler`: the `try` block, and on an error the `catch` block of
lines 110-129, which publishes the failure notification, ignores the outcome of
that publish, and rethrows. -/
def handler (w : World) (event : Event) : Run :=
  let t := tryBlock w event
  match t.result with
  | .ok response => ⟨t.calls, .ok response⟩
  | .error error =>
    let message := failureMessage error t.key t.bucket
    let calls := t.calls ++ [Call.publish (SNS_TOPIC_ARN w) failureSubject message]
    match w.publish t.calls (SNS_TOPIC_ARN w) failureSubject message with
    | none => ⟨calls, .error error⟩
    | some _ => ⟨calls, .error error⟩

/-! ## Observations on a run -/

/-- The items of the table-store write attempts of a trace, in order. -/
def putItems : List Call → List Row
  | [] => []
  | Call.put _ item :: rest => item :: putItems rest
  | _ :: rest => putItems rest

/-- The subjects of the notification-publish attempts of a trace, in order. -/
def publishSubjects : List Call → List Str
  | [] => []
  | Call.publish _ subject _ :: rest => subject :: publishSubjects rest
  | _ :: rest => publishSubjects rest

/-- The answers the table store gave to the write attempts of a trace, in
order, obtained by asking the world again with the same history: `hist` holds
the calls made before the rest of the trace. -/
def putOutcomes (w : World) : List Call → List Call → List (Option JsError)
  | _, [] => []
  | hist, Call.put t item :: rest =>
    w.putItem hist t item :: putOutcomes w (hist ++ [Call.put t item]) rest
  | hist, c :: rest => putOutcomes w (hist ++ [c]) rest

/-- The error list the claims describe: one message
`Error processing row i: <error text>` per failed write, in ascending line
index, the first outcome belonging to line `i`. -/
def expectedErrors : Nat → List (Option JsError) → List Str
  | _, [] => []
  | i, none :: rest => expectedErrors (i + 1) rest
  | i, some e :: rest =>
    ("Error processing row ".toList ++ (Nat.repr i).toList ++ ": ".toList ++ e.message)
      :: expectedErrors (i + 1) rest

/-- Number of successful writes among a list of outcomes. -/
def countOk (outs : List (Option JsError)) : Nat := (outs.filter Option.isNone).length

/-- Number of failed writes among a list of outcomes. -/
def countFailed (outs : List (Option JsError)) : Nat := (outs.filter Option.isSome).length

/-- Replace every line feed by carriage return + line feed. -/
def toCRLF : Str → Str
  | [] => []
  | c :: cs => if c = '\n' then '\r' :: '\n' :: toCRLF cs else c :: toCRLF cs

/-- Following the wording of the key-decoding rule: one left-to-right pass over
the raw key in which every percent-escape is decoded and every `+` that stands
outside an escape becomes a space. -/
def decodeKeySpec (rawKey : Str) : Option Str :=
  decodeWith (fun c => if c = '+' then ' ' else c) none rawKey

/-- The header line `lines[0]` of `fileContent`. -/
def headerLine (fileContent : Str) : Str := (splitLines fileContent).headD []

/-- The data lines `lines[1], lines[2], ...` of `fileContent`. -/
def dataLines (fileContent : Str) : List Str := (splitLines fileContent).tail

/-- The put calls of a batch: one per data line, in order, each carrying the
item built from that line and the clock reading taken for it. -/
def putCalls (w : World) (headers : List Str) (key : Str) (stamps : List Str)
    (lines : List Str) : List Call :=
  List.zipWith (fun ts line => Call.put (TABLE_NAME w) (makeItem headers key ts line)) stamps lines

/-- The UTF-8 octets of a character. -/
def utf8Octets (c : Char) : List Nat :=
  let n := c.toNat
  if n < 0x80 then [n]
  else if n < 0x800 then [0xC0 + n / 64, 0x80 + n % 64]
  else if n < 0x10000 then [0xE0 + n / 4096, 0x80 + n / 64 % 64, 0x80 + n % 64]
  else [0xF0 + n / 262144, 0x80 + n / 4096 % 64, 0x80 + n / 64 % 64, 0x80 + n % 64]

/-- Upper-case hexadecimal digit of a value below 16. -/
def hexDigit (d : Nat) : Char :=
  if d < 10 then Char.ofNat (0x30 + d) else Char.ofNat (0x37 + d)

/-- The escape `%XY` of one octet. -/
def escapeOctet (b : Nat) : Str := ['%', hexDigit (b / 16), hexDigit (b % 16)]

/-- A character written as the percent-escapes of its UTF-8 octets, the form
in which `encodeURIComponent` writes a character it does not leave as is. -/
def percentEncode (c : Char) : Str := ((utf8Octets c).map escapeOctet).flatten

/-- One character of a key as it is written in the raw key: as itself, or as
the percent-escapes of its UTF-8 octets. -/
inductive KeyPiece where
  | plain (c : Char)
  | escaped (c : Char)
deriving DecidableEq, Repr

/-- How a piece is written in the raw key. -/
def KeyPiece.raw : KeyPiece → Str
  | .plain c => [c]
  | .escaped c => percentEncode c

/-- The character a piece stands for: a plain `+` stands for a space, any
other plain character for itself, an escaped character for itself. -/
def KeyPiece.decoded : KeyPiece → Char
  | .plain c => if c = '+' then ' ' else c
  | .escaped c => c

/-- The raw key written by a list of pieces. -/
def rawKeyOf (pieces : List KeyPiece) : Str := (pieces.map KeyPiece.raw).flatten

/-! ## Sample inputs -/

/-- An S3 notification for object `rawKey` of bucket `bucket`. -/
def s3Event (bucket rawKey : Str) : Event :=
  ⟨some [⟨some ⟨some ⟨some bucket⟩, some ⟨some rawKey⟩⟩⟩]⟩

/-- The error of a table store that rejects a write. -/
def writeRejected : JsError := ⟨"ValidationException".toList, "write rejected".toList⟩

/-- The error of a notification service that rejects a publish. -/
def publishRejected : JsError := ⟨"InvalidParameter".toList, "publish rejected".toList⟩

/-- The error of an object store that has no such object. -/
def noSuchKey : JsError := ⟨"NoSuchKey".toList, "The specified key does not exist.".toList⟩

/-- A world in which the object holds `content`, the write attempts whose
1-based position is in `failing` are rejected, the publish of a subject in
`failingSubjects` is rejected, and the clock always reads the same instant. -/
def sampleWorld (content : Str) (failing : List Nat) (failingSubjects : List Str) : World where
  DYNAMODB_TABLE := none
  SNS_TOPIC_ARN := some "arn:aws:sns:us-east-1:000000000000:csv".toList
  getObject := fun _ _ => .ok content
  putItem := fun hist _ _ =>
    if (putItems hist).length + 1 ∈ failing then some writeRejected else none
  publish := fun _ _ subject _ => if subject ∈ failingSubjects then some publishRejected else none
  now := fun _ => "2024-01-01T00:00:00.000Z".toList

/-- The content of the worked example. -/
def sampleContent : Str := "id,name\n1,Alice\n2,Bob\n".toList

/-- The trigger event of the worked example. -/
def sampleEvent : Event := s3Event "uploads".toList "in/data.csv".toList

/-- A file with three data lines. -/
def threeRows : Str := "id\n1\n2\n3".toList

/-- The raw key of the key-decoding example. -/
def encodedKey : Str := "in%2Bfolder/a+b.csv".toList

/-- A content made of blanks and line breaks only. -/
def blankContent : Str := " \n\t\r\n ".toList

/-- The raw key of the key-decoding example, piece by piece: the first `+` is
percent-encoded, the second is plain. -/
def encodedKeyPieces : List KeyPiece :=
  [.plain 'i', .plain 'n', .escaped '+', .plain 'f', .plain 'o', .plain 'l', .plain 'd',
   .plain 'e', .plain 'r', .plain '/', .plain 'a', .plain '+', .plain 'b', .plain '.',
   .plain 'c', .plain 's', .plain 'v']

/-- A file whose only column is named `__proto__`. -/
def protoContent : Str := "__proto__\n1".toList

/-- A world in which the object cannot be fetched. -/
def brokenStoreWorld (publishFails : Bool) : World where
  DYNAMODB_TABLE := none
  SNS_TOPIC_ARN := none
  getObject := fun _ _ => .error noSuchKey
  putItem := fun _ _ _ => none
  publish := fun _ _ _ _ => if publishFails then some publishRejected else none
  now := fun _ => "2024-01-01T00:00:00.000Z".toList

/-! ## Basic facts about the built-ins -/

theorem split_ne_nil (sep : Char) (s : Str) : split sep s ≠ [] := by
  cases s with
  | nil => simp [split]
  | cons c cs =>
    unfold split
    split
    · simp
    · split <;> simp

theorem splitLines_eq_cons (content : Str) :
    splitLines content = headerLine content :: dataLines content := by
  unfold headerLine dataLines
  have h := split_ne_nil '\n' (trim content)
  unfold splitLines
  cases hs : split '\n' (trim content) with
  | nil => exact absurd hs h
  | cons a l => rfl

/-! ## Facts about traces -/

theorem putItems_append (a b : List Call) : putItems (a ++ b) = putItems a ++ putItems b := by
  induction a with
  | nil => rfl
  | cons c a ih => cases c <;> simp [putItems, ih]

theorem publishSubjects_append (a b : List Call) :
    publishSubjects (a ++ b) = publishSubjects a ++ publishSubjects b := by
  induction a with
  | nil => rfl
  | cons c a ih => cases c <;> simp [publishSubjects, ih]

theorem putOutcomes_append (w : World) (a b hist : List Call) :
    putOutcomes w hist (a ++ b) = putOutcomes w hist a ++ putOutcomes w (hist ++ a) b := by
  induction a generalizing hist with
  | nil => simp [putOutcomes]
  | cons c a ih => cases c <;> simp [putOutcomes, ih]

theorem putItems_putCalls (w : World) (headers : List Str) (key : Str) (stamps lines : List Str) :
    putItems (putCalls w headers key stamps lines)
      = List.zipWith (makeItem headers key) stamps lines := by
  induction stamps generalizing lines with
  | nil => simp [putCalls, putItems]
  | cons ts stamps ih =>
    cases lines with
    | nil => simp [putCalls, putItems]
    | cons l lines =>
      have := ih lines
      simp only [putCalls] at this
      simp [putCalls, putItems, this]

theorem publishSubjects_putCalls (w : World) (headers : List Str) (key : Str)
    (stamps lines : List Str) :
    publishSubjects (putCalls w headers key stamps lines) = [] := by
  induction stamps generalizing lines with
  | nil => simp [putCalls, publishSubjects]
  | cons ts stamps ih =>
    cases lines with
    | nil => simp [putCalls, publishSubjects]
    | cons l lines =>
      have := ih lines
      simp only [putCalls] at this
      simp [putCalls, publishSubjects, this]

theorem length_putOutcomes_putCalls (w : World) (headers : List Str) (key : Str)
    (stamps lines : List Str) (hist : List Call) (hlen : stamps.length = lines.length) :
    (putOutcomes w hist (putCalls w headers key stamps lines)).length = lines.length := by
  induction stamps generalizing lines hist with
  | nil =>
    cases lines with
    | nil => simp [putCalls, putOutcomes]
    | cons l lines => simp at hlen
  | cons ts stamps ih =>
    cases lines with
    | nil => simp at hlen
    | cons l lines =>
      have := ih lines (hist ++ [Call.put (TABLE_NAME w) (makeItem headers key ts l)])
        (by simpa using hlen)
      simp only [putCalls] at this
      simp [putCalls, putOutcomes, this]

theorem countOk_add_countFailed (outs : List (Option JsError)) :
    countOk outs + countFailed outs = outs.length := by
  induction outs with
  | nil => rfl
  | cons o outs ih =>
    cases o <;> simp [countOk, countFailed] at ih ⊢ <;> omega

theorem length_expectedErrors (i : Nat) (outs : List (Option JsError)) :
    (expectedErrors i outs).length = countFailed outs := by
  induction outs generalizing i with
  | nil => rfl
  | cons o outs ih =>
    cases o <;> simp [expectedErrors, countFailed] at ih ⊢ <;> exact ih _

/-! ## Facts about the row loop -/

theorem processRow_calls (w : World) (headers : List Str) (key : Str) (i : Nat) (line : Str)
    (st : Progress) :
    (processRow w headers key i line st).calls
      = st.calls ++ [Call.put (TABLE_NAME w) (makeItem headers key (w.now st.calls) line)] := by
  simp only [processRow]
  cases w.putItem st.calls (TABLE_NAME w) (makeItem headers key (w.now st.calls) line) <;> rfl

theorem processRow_ok (w : World) (headers : List Str) (key : Str) (i : Nat) (line : Str)
    (st : Progress)
    (h : w.putItem st.calls (TABLE_NAME w) (makeItem headers key (w.now st.calls) line) = none) :
    processRow w headers key i line st
      = ⟨st.processedCount + 1, st.errors,
         st.calls ++ [Call.put (TABLE_NAME w) (makeItem headers key (w.now st.calls) line)]⟩ := by
  unfold processRow
  simp only [h]

theorem processRow_failed (w : World) (headers : List Str) (key : Str) (i : Nat) (line : Str)
    (st : Progress) (e : JsError)
    (h : w.putItem st.calls (TABLE_NAME w) (makeItem headers key (w.now st.calls) line) = some e) :
    processRow w headers key i line st
      = ⟨st.processedCount, st.errors ++ [rowErrorMsg i e],
         st.calls ++ [Call.put (TABLE_NAME w) (makeItem headers key (w.now st.calls) line)]⟩ := by
  unfold processRow
  simp only [h]

/-- The loop makes one put call per line, in order, whatever the table store
answers; the counter and the error list are determined by those answers. -/
theorem rowLoop_spec (w : World) (headers : List Str) (key : Str) (lines : List Str) :
    ∀ (i : Nat) (st : Progress), ∃ stamps : List Str, stamps.length = lines.length ∧
      (rowLoop w headers key i lines st).calls
        = st.calls ++ putCalls w headers key stamps lines ∧
      (rowLoop w headers key i lines st).processedCount
        = st.processedCount
          + countOk (putOutcomes w st.calls (putCalls w headers key stamps lines)) ∧
      (rowLoop w headers key i lines st).errors
        = st.errors
          ++ expectedErrors i (putOutcomes w st.calls (putCalls w headers key stamps lines)) := by
  induction lines with
  | nil =>
    intro i st
    exact ⟨[], rfl, by simp [rowLoop, putCalls], by simp [rowLoop, putCalls, putOutcomes, countOk],
      by simp [rowLoop, putCalls, putOutcomes, expectedErrors]⟩
  | cons line rest ih =>
    intro i st
    obtain ⟨stamps, hlen, hcalls, hcount, herrs⟩ :=
      ih (i + 1) (processRow w headers key i line st)
    have hc := processRow_calls w headers key i line st
    refine ⟨w.now st.calls :: stamps, by simp [hlen], ?_, ?_, ?_⟩
    · rw [rowLoop, hcalls, hc]
      simp [putCalls]
    · rw [rowLoop, hcount, hc]
      cases hput : w.putItem st.calls (TABLE_NAME w)
          (makeItem headers key (w.now st.calls) line) with
      | none =>
        rw [processRow_ok w headers key i line st hput]
        simp [putCalls, putOutcomes, hput, countOk]
        omega
      | some e =>
        rw [processRow_failed w headers key i line st e hput]
        simp [putCalls, putOutcomes, hput, countOk]
    · rw [rowLoop, herrs, hc]
      cases hput : w.putItem st.calls (TABLE_NAME w)
          (makeItem headers key (w.now st.calls) line) with
      | none =>
        rw [processRow_ok w headers key i line st hput]
        simp [putCalls, putOutcomes, hput, expectedErrors, rowErrorMsg, numToStr]
      | some e =>
        rw [processRow_failed w headers key i line st e hput]
        simp [putCalls, putOutcomes, hput, expectedErrors, rowErrorMsg, numToStr]

/-! ## The shape of a run -/

/-- The handler returns what the `try` block returns and raises what it raises. -/
theorem handler_result (w : World) (event : Event) :
    (handler w event).result = (tryBlock w event).result := by
  simp only [handler]
  cases (tryBlock w event).result with
  | ok r => rfl
  | error e =>
    simp only []
    cases w.publish (tryBlock w event).calls (SNS_TOPIC_ARN w) failureSubject
      (failureMessage e (tryBlock w event).key (tryBlock w event).bucket) <;> rfl

/-- The calls of a run whose `try` block returns. -/
theorem handler_calls_ok (w : World) (event : Event) (r : Response)
    (h : (tryBlock w event).result = .ok r) :
    (handler w event).calls = (tryBlock w event).calls := by
  simp only [handler, h]

/-- The calls of a run whose `try` block raises `e`: the failure publish is
attempted once, after everything else. -/
theorem handler_calls_error (w : World) (event : Event) (e : JsError)
    (h : (tryBlock w event).result = .error e) :
    (handler w event).calls
      = (tryBlock w event).calls
        ++ [Call.publish (SNS_TOPIC_ARN w) failureSubject
              (failureMessage e (tryBlock w event).key (tryBlock w event).bucket)] := by
  simp only [handler, h]
  cases w.publish (tryBlock w event).calls (SNS_TOPIC_ARN w) failureSubject
    (failureMessage e (tryBlock w event).key (tryBlock w event).bucket) <;> rfl

/-- A run whose fetch succeeds: the trace is the fetch, one put per data line
and the success publish; if that publish is rejected, the failure publish
follows and the rejection is raised. -/
theorem handler_fetched (w : World) (event : Event) (bucket : Option Str)
    (rawKey key content : Str)
    (hb : readBucket event = .ok bucket) (hr : readRawKey event = .ok rawKey)
    (hk : decodeKey rawKey = .ok key) (hf : w.getObject bucket key = .ok content) :
    ∃ (stamps : List Str) (ts : Str) (outs : List (Option JsError)),
      stamps.length = (dataLines content).length ∧
      outs = putOutcomes w [Call.getObject bucket key]
          (putCalls w (parseHeaders (headerLine content)) key stamps (dataLines content)) ∧
      ts = w.now (Call.getObject bucket key ::
          putCalls w (parseHeaders (headerLine content)) key stamps (dataLines content)) ∧
      ((w.publish
            (Call.getObject bucket key ::
              putCalls w (parseHeaders (headerLine content)) key stamps (dataLines content))
            (SNS_TOPIC_ARN w) (successSubject key)
            (notificationMessage key bucket (countOk outs) (expectedErrors 1 outs) ts) = none ∧
          (handler w event).calls
            = Call.getObject bucket key ::
                putCalls w (parseHeaders (headerLine content)) key stamps (dataLines content)
              ++ [Call.publish (SNS_TOPIC_ARN w) (successSubject key)
                    (notificationMessage key bucket (countOk outs) (expectedErrors 1 outs) ts)] ∧
          (handler w event).result
            = .ok (successResponse (countOk outs) (expectedErrors 1 outs))) ∨
        (∃ e : JsError,
          w.publish
            (Call.getObject bucket key ::
              putCalls w (parseHeaders (headerLine content)) key stamps (dataLines content))
            (SNS_TOPIC_ARN w) (successSubject key)
            (notificationMessage key bucket (countOk outs) (expectedErrors 1 outs) ts) = some e ∧
          (handler w event).calls
            = Call.getObject bucket key ::
                putCalls w (parseHeaders (headerLine content)) key stamps (dataLines content)
              ++ [Call.publish (SNS_TOPIC_ARN w) (successSubject key)
                    (notificationMessage key bucket (countOk outs) (expectedErrors 1 outs) ts),
                  Call.publish (SNS_TOPIC_ARN w) failureSubject
                    (failureMessage e (some key) bucket)] ∧
          (handler w event).result = .error e)) := by
  obtain ⟨stamps, hlen, hcalls, hcount, herrs⟩ :=
    rowLoop_spec w (parseHeaders (headerLine content)) key (dataLines content) 1
      ⟨0, [], [Call.getObject bucket key]⟩
  simp only [List.singleton_append, Nat.zero_add, List.nil_append] at hcalls hcount herrs
  obtain ⟨puts, hputs⟩ : ∃ puts, puts
      = putCalls w (parseHeaders (headerLine content)) key stamps (dataLines content) := ⟨_, rfl⟩
  obtain ⟨outs, houts⟩ : ∃ outs, outs = putOutcomes w [Call.getObject bucket key] puts :=
    ⟨_, rfl⟩
  obtain ⟨ts, hts⟩ : ∃ ts, ts = w.now (Call.getObject bucket key :: puts) := ⟨_, rfl⟩
  obtain ⟨message, hmsg⟩ : ∃ m, m
      = notificationMessage key bucket (countOk outs) (expectedErrors 1 outs) ts := ⟨_, rfl⟩
  rw [← hputs] at hcalls hcount herrs
  rw [← houts] at hcount herrs
  refine ⟨stamps, ts, outs, hlen, by rw [houts, hputs], by rw [hts, hputs], ?_⟩
  rw [← hputs, ← hmsg]
  cases hp : w.publish (Call.getObject bucket key :: puts) (SNS_TOPIC_ARN w)
      (successSubject key) message with
  | none =>
    left
    have ht : tryBlock w event
        = ⟨Call.getObject bucket key :: puts
            ++ [Call.publish (SNS_TOPIC_ARN w) (successSubject key) message],
           bucket, some key, .ok (successResponse (countOk outs) (expectedErrors 1 outs))⟩ := by
      simp [tryBlock, hb, hr, hk, hf, splitLines_eq_cons, hcalls, hcount, herrs, ← hts, ← hmsg, hp]
    refine ⟨rfl, ?_, ?_⟩
    · rw [handler_calls_ok w event _ (by rw [ht])]
      rw [ht]
    · rw [handler_result, ht]
  | some e =>
    right
    have ht : tryBlock w event
        = ⟨Call.getObject bucket key :: puts
            ++ [Call.publish (SNS_TOPIC_ARN w) (successSubject key) message],
           bucket, some key, .error e⟩ := by
      simp [tryBlock, hb, hr, hk, hf, splitLines_eq_cons, hcalls, hcount, herrs, ← hts, ← hmsg, hp]
    refine ⟨e, rfl, ?_, ?_⟩
    · rw [handler_calls_error w event e (by rw [ht])]
      rw [ht]
      simp
    · rw [handler_result, ht]

/-- A run that fails before or at the fetch: the only publish is the failure
notification, and the error is raised whatever the publish answers. -/
theorem handler_fetch_failed (w : World) (event : Event) (bucket : Option Str)
    (rawKey key : Str) (e : JsError)
    (hb : readBucket event = .ok bucket) (hr : readRawKey event = .ok rawKey)
    (hk : decodeKey rawKey = .ok key) (hf : w.getObject bucket key = .error e) :
    (handler w event).calls
      = [Call.getObject bucket key,
         Call.publish (SNS_TOPIC_ARN w) failureSubject (failureMessage e (some key) bucket)] ∧
    (handler w event).result = .error e := by
  have ht : tryBlock w event = ⟨[Call.getObject bucket key], bucket, some key, .error e⟩ := by
    simp [tryBlock, hb, hr, hk, hf]
  constructor
  · rw [handler_calls_error w event e (by rw [ht]), ht]
    rfl
  · rw [handler_result, ht]

/-! ## The texts the handler produces, spelled out -/

theorem join_eq_intercalate (sep : Str) (l : List Str) : join sep l = List.intercalate sep l := by
  induction l with
  | nil => rfl
  | cons s l ih =>
    cases l with
    | nil => simp [join, List.intercalate]
    | cons t rest =>
      rw [join, ih]
      simp [List.intercalate, List.intersperse]

theorem successResponse_literal (processedCount : Nat) (errors : List Str) :
    successResponse processedCount errors
      = ⟨200, "\x7b\"message\":\"Processing complete\",\"recordsProcessed\":".toList
          ++ (Nat.repr processedCount).toList ++ ",\"errors\":".toList
          ++ (Nat.repr errors.length).toList ++ "\x7d".toList⟩ := by
  simp [successResponse, Summary.stringify, numToStr]

theorem notificationMessage_literal (key : Str) (bucket : Option Str) (processedCount : Nat)
    (errors : List Str) (timestamp : Str) :
    notificationMessage key bucket processedCount errors timestamp
      = "\nCSV Processing Complete!\n\nFile: ".toList ++ key
        ++ "\nBucket: ".toList ++ bucket.getD "undefined".toList
        ++ "\nRecords Processed: ".toList ++ (Nat.repr processedCount).toList
        ++ "\nErrors: ".toList ++ (Nat.repr errors.length).toList
        ++ "\nTimestamp: ".toList ++ timestamp ++ "\n\n".toList
        ++ (if errors = [] then "All records processed successfully!".toList
            else "Errors encountered:\n".toList ++ List.intercalate "\n".toList errors)
        ++ "\n        ".toList := by
  have hb : showBucket bucket = bucket.getD "undefined".toList := by
    cases bucket <;> rfl
  unfold notificationMessage
  rw [hb, join_eq_intercalate]
  cases errors with
  | nil => simp [numToStr]
  | cons e es => simp [numToStr]

theorem length_putCalls (w : World) (headers : List Str) (key : Str) (stamps lines : List Str)
    (hlen : stamps.length = lines.length) :
    (putCalls w headers key stamps lines).length = lines.length := by
  simp [putCalls, hlen]

/-- The items written by a run whose fetch succeeds. -/
theorem putItems_of_fetched (w : World) (event : Event) (bucket : Option Str)
    (rawKey key content : Str)
    (hb : readBucket event = .ok bucket) (hr : readRawKey event = .ok rawKey)
    (hk : decodeKey rawKey = .ok key) (hf : w.getObject bucket key = .ok content) :
    ∃ stamps : List Str, stamps.length = (dataLines content).length ∧
      putItems (handler w event).calls
        = List.zipWith (makeItem (parseHeaders (headerLine content)) key) stamps
            (dataLines content) := by
  obtain ⟨stamps, ts, outs, hlen, houts, hts, h⟩ :=
    handler_fetched w event bucket rawKey key content hb hr hk hf
  refine ⟨stamps, hlen, ?_⟩
  rcases h with ⟨_, hc, _⟩ | ⟨e, _, hc, _⟩ <;>
    rw [hc] <;>
    simp [putItems, putItems_append, putItems_putCalls]

/-- A run whose fetch succeeds, read off its trace: after the fetch and one
put per data line comes the success publish; the run returns when that publish
is accepted and raises its error when it is rejected. -/
theorem handler_fetched_trace (w : World) (event : Event) (bucket : Option Str)
    (rawKey key content : Str)
    (hb : readBucket event = .ok bucket) (hr : readRawKey event = .ok rawKey)
    (hk : decodeKey rawKey = .ok key) (hf : w.getObject bucket key = .ok content) :
    ∃ message : Str,
      message = notificationMessage key bucket
          (countOk (putOutcomes w [] (handler w event).calls))
          (expectedErrors 1 (putOutcomes w [] (handler w event).calls))
          (w.now ((handler w event).calls.take ((dataLines content).length + 1))) ∧
      (putOutcomes w [] (handler w event).calls).length = (dataLines content).length ∧
      (handler w event).calls[(dataLines content).length + 1]?
        = some (Call.publish (SNS_TOPIC_ARN w) (successSubject key) message) ∧
      (w.publish ((handler w event).calls.take ((dataLines content).length + 1))
          (SNS_TOPIC_ARN w) (successSubject key) message = none →
        (handler w event).calls.length = (dataLines content).length + 2 ∧
        (handler w event).result
          = .ok (successResponse (countOk (putOutcomes w [] (handler w event).calls))
              (expectedErrors 1 (putOutcomes w [] (handler w event).calls)))) ∧
      (∀ e : JsError,
        w.publish ((handler w event).calls.take ((dataLines content).length + 1))
          (SNS_TOPIC_ARN w) (successSubject key) message = some e →
        (handler w event).result = .error e) := by
  obtain ⟨stamps, ts, outs, hlen, houts, hts, h⟩ :=
    handler_fetched w event bucket rawKey key content hb hr hk hf
  obtain ⟨puts, hputs⟩ : ∃ puts, puts
      = putCalls w (parseHeaders (headerLine content)) key stamps (dataLines content) := ⟨_, rfl⟩
  rw [← hputs] at houts hts h
  have hpl : puts.length = (dataLines content).length := by
    rw [hputs]; exact length_putCalls w _ key stamps _ hlen
  have hol : outs.length = (dataLines content).length := by
    rw [houts, hputs]; exact length_putOutcomes_putCalls w _ key stamps _ _ hlen
  have hout : putOutcomes w [] (handler w event).calls = outs := by
    rcases h with ⟨_, hc, _⟩ | ⟨e, _, hc, _⟩ <;>
      rw [hc, houts] <;>
      simp [putOutcomes, putOutcomes_append]
  have htake : (handler w event).calls.take ((dataLines content).length + 1)
      = Call.getObject bucket key :: puts := by
    rcases h with ⟨_, hc, _⟩ | ⟨e, _, hc, _⟩ <;>
      rw [hc, ← hpl] <;>
      simp
  have hget : (handler w event).calls[(dataLines content).length + 1]?
      = some (Call.publish (SNS_TOPIC_ARN w) (successSubject key)
          (notificationMessage key bucket (countOk outs) (expectedErrors 1 outs) ts)) := by
    have aux : ∀ (l : List Call) (x : Call) (rest : List Call),
        (l ++ x :: rest)[l.length]? = some x := by
      intro l x rest
      rw [List.getElem?_append_right (Nat.le_refl _)]
      simp
    rcases h with ⟨_, hc, _⟩ | ⟨e, _, hc, _⟩ <;>
      rw [hc, ← hpl] <;>
      exact aux (Call.getObject bucket key :: puts) _ _
  rw [hout, htake, ← hts]
  refine ⟨_, rfl, hol, hget, ?_, ?_⟩
  · intro hacc
    rcases h with ⟨_, hc, hres⟩ | ⟨e, hp, _, _⟩
    · refine ⟨?_, hres⟩
      rw [hc]
      simp [hpl]
    · rw [hacc] at hp
      cases hp
  · intro e he
    rcases h with ⟨hp, _, _⟩ | ⟨e', hp, _, hres⟩
    · rw [he] at hp
      cases hp
    · rw [he] at hp
      cases hp
      exact hres

/-! ## Claims about the batch -/

/-- C1: when the fetch succeeds, the handler makes exactly one table-store write
attempt per data line of the trimmed content, in file order, whatever the table
store answers; the accepted and the rejected writes add up to the number of
data lines, and the handler either returns status 200 with a body whose
`recordsProcessed` and `errors` are those two counts, or raises an error with
which a publish was rejected. -/
theorem C1_one_write_attempt_per_data_line (w : World) (event : Event) (bucket : Option Str)
    (rawKey key content : Str)
    (hb : readBucket event = .ok bucket) (hr : readRawKey event = .ok rawKey)
    (hk : decodeKey rawKey = .ok key) (hf : w.getObject bucket key = .ok content) :
    (putItems (handler w event).calls).length = (dataLines content).length ∧
    (∃ stamps : List Str, stamps.length = (dataLines content).length ∧
      putItems (handler w event).calls
        = List.zipWith (makeItem (parseHeaders (headerLine content)) key) stamps
            (dataLines content)) ∧
    (∃ recordsProcessed errors : Nat,
      recordsProcessed = countOk (putOutcomes w [] (handler w event).calls) ∧
      errors = countFailed (putOutcomes w [] (handler w event).calls) ∧
      recordsProcessed + errors = (dataLines content).length ∧
      ((handler w event).result
          = .ok ⟨200, "\x7b\"message\":\"Processing complete\",\"recordsProcessed\":".toList
              ++ (Nat.repr recordsProcessed).toList ++ ",\"errors\":".toList
              ++ (Nat.repr errors).toList ++ "\x7d".toList⟩ ∨
        (∃ (err : JsError) (hist : List Call) (subject message : Str),
          w.publish hist (SNS_TOPIC_ARN w) subject message = some err ∧
          (handler w event).result = .error err))) := by
  obtain ⟨stamps, hlen, hitems⟩ :=
    putItems_of_fetched w event bucket rawKey key content hb hr hk hf
  obtain ⟨message, _, hol, _, hacc, hrej⟩ :=
    handler_fetched_trace w event bucket rawKey key content hb hr hk hf
  refine ⟨?_, ⟨stamps, hlen, hitems⟩, _, _, rfl, rfl, ?_, ?_⟩
  · rw [hitems]; simp [hlen]
  · rw [countOk_add_countFailed, hol]
  · cases hp : w.publish ((handler w event).calls.take ((dataLines content).length + 1))
        (SNS_TOPIC_ARN w) (successSubject key) message with
    | none =>
      left
      rw [(hacc hp).2, successResponse_literal, length_expectedErrors]
    | some e =>
      right
      exact ⟨e, _, _, _, hp, hrej e hp⟩

/-- C2: when the fetch succeeds, a rejected write stops nothing: every data
line gets its write attempt, and after the last one the handler publishes, under
the subject `CSV Processing: <key>`, a message that reports the number of
accepted writes, the number of rejected ones and one line
`Error processing row i: <error text>` per rejected data line, in ascending
`i`; when that publish is accepted the handler returns status 200 with a body
whose `recordsProcessed` is the number of accepted writes and whose `errors` is
the number of rejected ones. -/
theorem C2_failed_write_does_not_stop_the_batch (w : World) (event : Event)
    (bucket : Option Str) (rawKey key content : Str)
    (hb : readBucket event = .ok bucket) (hr : readRawKey event = .ok rawKey)
    (hk : decodeKey rawKey = .ok key) (hf : w.getObject bucket key = .ok content) :
    (putOutcomes w [] (handler w event).calls).length = (dataLines content).length ∧
    (∃ stamps : List Str, stamps.length = (dataLines content).length ∧
      putItems (handler w event).calls
        = List.zipWith (makeItem (parseHeaders (headerLine content)) key) stamps
            (dataLines content)) ∧
    (∃ message : Str,
      message
        = "\nCSV Processing Complete!\n\nFile: ".toList ++ key
          ++ "\nBucket: ".toList ++ bucket.getD "undefined".toList
          ++ "\nRecords Processed: ".toList
          ++ (Nat.repr (countOk (putOutcomes w [] (handler w event).calls))).toList
          ++ "\nErrors: ".toList
          ++ (Nat.repr (countFailed (putOutcomes w [] (handler w event).calls))).toList
          ++ "\nTimestamp: ".toList
          ++ w.now ((handler w event).calls.take ((dataLines content).length + 1))
          ++ "\n\n".toList
          ++ (if expectedErrors 1 (putOutcomes w [] (handler w event).calls) = []
              then "All records processed successfully!".toList
              else "Errors encountered:\n".toList
                ++ List.intercalate "\n".toList
                    (expectedErrors 1 (putOutcomes w [] (handler w event).calls)))
          ++ "\n        ".toList ∧
      (handler w event).calls[(dataLines content).length + 1]?
        = some (Call.publish (SNS_TOPIC_ARN w) ("CSV Processing: ".toList ++ key) message) ∧
      (w.publish ((handler w event).calls.take ((dataLines content).length + 1))
          (SNS_TOPIC_ARN w) ("CSV Processing: ".toList ++ key) message = none →
        (handler w event).result
          = .ok ⟨200, "\x7b\"message\":\"Processing complete\",\"recordsProcessed\":".toList
              ++ (Nat.repr (countOk (putOutcomes w [] (handler w event).calls))).toList
              ++ ",\"errors\":".toList
              ++ (Nat.repr (countFailed (putOutcomes w [] (handler w event).calls))).toList
              ++ "\x7d".toList⟩)) := by
  obtain ⟨stamps, hlen, hitems⟩ :=
    putItems_of_fetched w event bucket rawKey key content hb hr hk hf
  obtain ⟨message, hmsg, hol, hget, hacc, _⟩ :=
    handler_fetched_trace w event bucket rawKey key content hb hr hk hf
  rw [notificationMessage_literal, length_expectedErrors] at hmsg
  refine ⟨hol, ⟨stamps, hlen, hitems⟩, message, hmsg, hget, ?_⟩
  intro hp
  rw [(hacc hp).2, successResponse_literal, length_expectedErrors]

/-- C1 at the worked example: the trailing newline adds no data line, so
there are two data lines, two write attempts, and the body returned reports
two records and no error. -/
theorem C1_witness :
    readBucket sampleEvent = .ok (some "uploads".toList) ∧
    readRawKey sampleEvent = .ok "in/data.csv".toList ∧
    decodeKey "in/data.csv".toList = .ok "in/data.csv".toList ∧
    (sampleWorld sampleContent [] []).getObject (some "uploads".toList) "in/data.csv".toList
      = .ok sampleContent ∧
    dataLines sampleContent = ["1,Alice".toList, "2,Bob".toList] ∧
    (putItems (handler (sampleWorld sampleContent [] []) sampleEvent).calls).length
      = (dataLines sampleContent).length ∧
    (handler (sampleWorld sampleContent [] []) sampleEvent).result
      = .ok ⟨200,
          "\x7b\"message\":\"Processing complete\",\"recordsProcessed\":2,\"errors\":0\x7d".toList⟩ :=
  ⟨rfl, rfl, rfl, rfl, by decide,
    (C1_one_write_attempt_per_data_line (sampleWorld sampleContent [] []) sampleEvent
      (some "uploads".toList) "in/data.csv".toList "in/data.csv".toList sampleContent
      rfl rfl rfl rfl).1, rfl⟩

/-- C2 at three data lines with the write of row 2 rejected: three write
attempts, the error list `Error processing row 2: write rejected` in the
published message, and a body reporting two records and one error. -/
theorem C2_witness :
    (sampleWorld threeRows [2] []).getObject (some "uploads".toList) "in/data.csv".toList
      = .ok threeRows ∧
    dataLines threeRows = ["1".toList, "2".toList, "3".toList] ∧
    (putOutcomes (sampleWorld threeRows [2] []) []
        (handler (sampleWorld threeRows [2] []) sampleEvent).calls).length
      = (dataLines threeRows).length ∧
    putOutcomes (sampleWorld threeRows [2] []) []
        (handler (sampleWorld threeRows [2] []) sampleEvent).calls
      = [none, some writeRejected, none] ∧
    (putItems (handler (sampleWorld threeRows [2] []) sampleEvent).calls).map
        (fun item => Row.get item "id".toList)
      = [some "1".toList, some "2".toList, some "3".toList] ∧
    (handler (sampleWorld threeRows [2] []) sampleEvent).calls[4]?
      = some (Call.publish "arn:aws:sns:us-east-1:000000000000:csv".toList
          "CSV Processing: in/data.csv".toList
          ("\nCSV Processing Complete!\n\nFile: in/data.csv\nBucket: uploads\n" ++
            "Records Processed: 2\nErrors: 1\nTimestamp: 2024-01-01T00:00:00.000Z\n\n" ++
            "Errors encountered:\nError processing row 2: write rejected\n        ").toList) ∧
    (handler (sampleWorld threeRows [2] []) sampleEvent).result
      = .ok ⟨200,
          "\x7b\"message\":\"Processing complete\",\"recordsProcessed\":2,\"errors\":1\x7d".toList⟩ :=
  ⟨rfl, by decide,
    (C2_failed_write_does_not_stop_the_batch (sampleWorld threeRows [2] []) sampleEvent
      (some "uploads".toList) "in/data.csv".toList "in/data.csv".toList threeRows
      rfl rfl rfl rfl).1,
    by decide, by decide, rfl, rfl⟩

/-- C5: when the fetch fails with `e`, the handler makes no table-store write
attempt and exactly one publish attempt, with subject `CSV Processing FAILED`
and a body holding the message of `e`, the key and the bucket (an empty one
shown as `unknown`), and raises `e` itself, whatever that publish answers. -/
theorem C5_fetch_failure_is_fatal (w : World) (event : Event) (bucket : Option Str)
    (rawKey key : Str) (e : JsError)
    (hb : readBucket event = .ok bucket) (hr : readRawKey event = .ok rawKey)
    (hk : decodeKey rawKey = .ok key) (hf : w.getObject bucket key = .error e) :
    putItems (handler w event).calls = [] ∧
    publishSubjects (handler w event).calls = [failureSubject] ∧
    (handler w event).calls
      = [Call.getObject bucket key,
         Call.publish (SNS_TOPIC_ARN w) failureSubject
          ("Error: Fatal error processing CSV: ".toList ++ e.message ++ "\nFile: ".toList
            ++ (if key = [] then "unknown".toList else key) ++ "\nBucket: ".toList
            ++ orUnknown bucket)] ∧
    (∀ b : Str, bucket = some b → b ≠ [] → orUnknown bucket = b) ∧
    (handler w event).result = .error e := by
  obtain ⟨hc, hres⟩ := handler_fetch_failed w event bucket rawKey key e hb hr hk hf
  refine ⟨?_, ?_, ?_, ?_, hres⟩
  · rw [hc]; rfl
  · rw [hc]; rfl
  · rw [hc]
    simp [failureMessage, orUnknown]
  · intro b hb' hne
    simp [hb', orUnknown, hne]

/-- C3, evaluated: with the same file and the same table-store answers, the
handler returns the 200 result (two records, one error) when the success
publish is accepted, and raises the publish error to the caller when it is
rejected. -/
theorem C3_rejected_success_publish_is_raised :
    (handler (sampleWorld threeRows [2] []) sampleEvent).result
      = .ok (successResponse 2 ["Error processing row 2: write rejected".toList]) ∧
    (handler (sampleWorld threeRows [2] [successSubject "in/data.csv".toList])
        sampleEvent).result
      = .error publishRejected ∧
    (handler (sampleWorld threeRows [2] []) sampleEvent).result
      = .ok ⟨200,
          "\x7b\"message\":\"Processing complete\",\"recordsProcessed\":2,\"errors\":1\x7d".toList⟩ ∧
    (handler (sampleWorld threeRows [2] ["CSV Processing: in/data.csv".toList])
        sampleEvent).result
      = .error ⟨"InvalidParameter".toList, "publish rejected".toList⟩ :=
  ⟨rfl, rfl, rfl, rfl⟩

/-- C4, evaluated: when the success publish is rejected after a completed
batch, the handler makes two publish attempts, the success-shaped one and then
the failure-shaped one. -/
theorem C4_rejected_success_publish_gives_two_attempts :
    publishSubjects
        (handler (sampleWorld sampleContent [] [successSubject "in/data.csv".toList])
          sampleEvent).calls
      = ["CSV Processing: in/data.csv".toList, "CSV Processing FAILED".toList] := by
  decide

/-- C5 at a missing object, with the failure publish itself rejected. -/
theorem C5_witness :
    readBucket sampleEvent = .ok (some "uploads".toList) ∧
    readRawKey sampleEvent = .ok "in/data.csv".toList ∧
    decodeKey "in/data.csv".toList = .ok "in/data.csv".toList ∧
    (brokenStoreWorld true).getObject (some "uploads".toList) "in/data.csv".toList
      = .error noSuchKey ∧
    (brokenStoreWorld true).publish [] [] failureSubject [] = some publishRejected ∧
    putItems (handler (brokenStoreWorld true) sampleEvent).calls = [] ∧
    publishSubjects (handler (brokenStoreWorld true) sampleEvent).calls = [failureSubject] ∧
    (handler (brokenStoreWorld true) sampleEvent).result = .error noSuchKey :=
  have h := C5_fetch_failure_is_fatal (brokenStoreWorld true) sampleEvent
    (some "uploads".toList) "in/data.csv".toList "in/data.csv".toList noSuchKey
    rfl rfl rfl rfl
  ⟨rfl, rfl, rfl, rfl, rfl, h.1, h.2.1, h.2.2.2.2⟩

/-! ## Facts about row objects -/

theorem protoKey_ne_uploadedAt : "uploadedAt".toList ≠ protoKey := by decide

theorem protoKey_ne_sourceFile : "sourceFile".toList ≠ protoKey := by decide

theorem mem_keys_assign (r : Row) (k v k' : Str) :
    k' ∈ Row.keys (Row.assign r k v) ↔ k' ∈ Row.keys r ∨ k' = k := by
  induction r with
  | nil => simp [Row.assign, Row.keys]
  | cons p r ih =>
    obtain ⟨a, b⟩ := p
    simp only [Row.keys] at ih
    by_cases h : a = k
    · subst h
      simp only [Row.assign, if_true, Row.keys, List.map_cons, List.mem_cons]
      tauto
    · simp only [Row.assign, h, if_false, Row.keys, List.map_cons, List.mem_cons, ih]
      tauto

theorem mem_keys_set (r : Row) (k v k' : Str) :
    k' ∈ Row.keys (Row.set r k v) ↔ k' ∈ Row.keys r ∨ (k' = k ∧ k ≠ protoKey) := by
  unfold Row.set
  by_cases h : k = protoKey
  · simp [h]
  · simp [h, mem_keys_assign]

theorem get_assign_same (r : Row) (k v : Str) : Row.get (Row.assign r k v) k = some v := by
  induction r with
  | nil => simp [Row.assign, Row.get]
  | cons p r ih =>
    obtain ⟨a, b⟩ := p
    by_cases h : a = k
    · simp [Row.assign, Row.get, h]
    · simp only [Row.get] at ih
      simp [Row.assign, Row.get, h, ih]

theorem get_assign_other (r : Row) (k v k' : Str) (hne : k' ≠ k) :
    Row.get (Row.assign r k v) k' = Row.get r k' := by
  induction r with
  | nil =>
    have : ¬ k = k' := fun h => hne h.symm
    simp [Row.assign, Row.get, this]
  | cons p r ih =>
    obtain ⟨a, b⟩ := p
    simp only [Row.get] at ih
    by_cases h : a = k
    · subst h
      have : ¬ a = k' := fun h => hne h.symm
      simp [Row.assign, Row.get, this]
    · by_cases h2 : a = k'
      · subst h2
        simp [Row.assign, Row.get, h]
      · simp [Row.assign, Row.get, h, h2, ih]

theorem get_set_same (r : Row) (k v : Str) (hk : k ≠ protoKey) :
    Row.get (Row.set r k v) k = some v := by
  simp [Row.set, hk, get_assign_same]

theorem get_set_other (r : Row) (k v k' : Str) (hne : k' ≠ k) :
    Row.get (Row.set r k v) k' = Row.get r k' := by
  unfold Row.set
  by_cases h : k = protoKey
  · simp [h]
  · simp [h, get_assign_other r k v k' hne]

theorem assign_of_not_mem (r : Row) (k v : Str) (h : k ∉ Row.keys r) :
    Row.assign r k v = r ++ [(k, v)] := by
  induction r with
  | nil => rfl
  | cons p r ih =>
    obtain ⟨a, b⟩ := p
    simp only [Row.keys, List.map_cons, List.mem_cons, not_or] at h
    have hne : ¬ a = k := fun e => h.1 e.symm
    simp [Row.assign, hne, ih h.2]

theorem mem_keys_forEachHeader (values : List Str) (hs : List Str) :
    ∀ (index : Nat) (row : Row) (k : Str),
      k ∈ Row.keys (forEachHeader values hs index row)
        ↔ k ∈ Row.keys row ∨ (k ∈ hs ∧ k ≠ protoKey) := by
  induction hs with
  | nil => intro index row k; simp [forEachHeader]
  | cons h rest ih =>
    intro index row k
    rw [forEachHeader, ih, mem_keys_set]
    constructor
    · rintro ((h1 | ⟨h1, h2⟩) | ⟨h1, h2⟩)
      · exact Or.inl h1
      · exact Or.inr ⟨by simp [h1], by rw [h1]; exact h2⟩
      · exact Or.inr ⟨by simp [h1], h2⟩
    · rintro (h1 | ⟨h1, h2⟩)
      · exact Or.inl (Or.inl h1)
      · rcases List.mem_cons.mp h1 with h3 | h3
        · exact Or.inl (Or.inr ⟨h3, by rw [← h3]; exact h2⟩)
        · exact Or.inr ⟨h3, h2⟩

theorem get_forEachHeader_of_not_mem (values : List Str) (hs : List Str) :
    ∀ (index : Nat) (row : Row) (k : Str), k ∉ hs →
      Row.get (forEachHeader values hs index row) k = Row.get row k := by
  induction hs with
  | nil => intro index row k _; rfl
  | cons h rest ih =>
    intro index row k hk
    simp only [List.mem_cons, not_or] at hk
    rw [forEachHeader, ih _ _ _ hk.2, get_set_other _ _ _ _ hk.1]

theorem get_forEachHeader (values : List Str) (hs : List Str) :
    ∀ (index : Nat) (row : Row) (i : Nat) (h : Str), hs.Nodup → hs[i]? = some h →
      h ≠ protoKey →
      Row.get (forEachHeader values hs index row) h = some (valueAt values (index + i)) := by
  induction hs with
  | nil => intro index row i h _ hi; simp at hi
  | cons h0 rest ih =>
    intro index row i h hnd hi hp
    rw [List.nodup_cons] at hnd
    cases i with
    | zero =>
      simp only [List.getElem?_cons_zero, Option.some.injEq] at hi
      subst hi
      rw [forEachHeader, get_forEachHeader_of_not_mem _ _ _ _ _ hnd.1, get_set_same _ _ _ hp]
      rfl
    | succ j =>
      simp only [List.getElem?_cons_succ] at hi
      rw [forEachHeader, ih (index + 1) _ j h hnd.2 hi hp]
      congr 2
      omega

theorem keys_forEachHeader (values : List Str) (hs : List Str) :
    ∀ (index : Nat) (row : Row), hs.Nodup → (∀ h ∈ hs, h ∉ Row.keys row) →
      Row.keys (forEachHeader values hs index row)
        = Row.keys row ++ hs.filter (fun h => decide (h ≠ protoKey)) := by
  induction hs with
  | nil => intro index row _ _; simp [forEachHeader]
  | cons h0 rest ih =>
    intro index row hnd hdis
    rw [List.nodup_cons] at hnd
    have h0r : h0 ∉ Row.keys row := hdis h0 (by simp)
    rw [forEachHeader, ih _ _ hnd.2]
    · by_cases hp : h0 = protoKey
      · simp [Row.set, hp]
      · simp [Row.set, hp, assign_of_not_mem _ _ _ h0r, Row.keys]
    · intro h hmem hk
      rw [mem_keys_set] at hk
      rcases hk with hk | ⟨hk, _⟩
      · exact hdis h (by simp [hmem]) hk
      · exact hnd.1 (hk ▸ hmem)

theorem valueAt_parseValues (line : Str) (i : Nat) :
    valueAt (parseValues line) i = (((split ',' line)[i]?).map trim).getD [] := by
  unfold valueAt parseValues
  rw [List.getElem?_map]
  cases (split ',' line)[i]? <;> rfl

theorem get_of_mem (r : Row) (k v : Str) (hnd : (Row.keys r).Nodup) (hm : (k, v) ∈ r) :
    Row.get r k = some v := by
  induction r with
  | nil => simp at hm
  | cons p r ih =>
    obtain ⟨a, b⟩ := p
    simp only [Row.keys, List.map_cons, List.nodup_cons] at hnd
    rcases List.mem_cons.mp hm with h | h
    · cases h
      simp [Row.get]
    · have hak : ¬ a = k := by
        intro e
        subst e
        exact hnd.1 (List.mem_map_of_mem Prod.fst h)
      have := ih hnd.2 h
      simp only [Row.get] at this
      simp [Row.get, hak, this]

theorem exists_of_mem_zipWith {α β γ : Type} (f : α → β → γ) (as : List α) (bs : List β)
    (x : γ) (h : x ∈ List.zipWith f as bs) : ∃ a b, b ∈ bs ∧ x = f a b := by
  induction as generalizing bs with
  | nil => simp at h
  | cons a as ih =>
    cases bs with
    | nil => simp at h
    | cons b bs =>
      simp only [List.zipWith_cons_cons, List.mem_cons] at h
      rcases h with h | h
      · exact ⟨a, b, by simp, h⟩
      · obtain ⟨a', b', hb, hx⟩ := ih bs h
        exact ⟨a', b', by simp [hb], hx⟩

/-! ## Claims about the row mapping -/

/-- C6, as written, fails for a column named `__proto__`: with header line
`id,__proto__` (distinct names) and data line `1,x`, the field at index 1 is
`x` but the row has no own property `__proto__`. -/
theorem C6_counterexample :
    (parseHeaders "id,__proto__".toList).Nodup ∧
    (parseHeaders "id,__proto__".toList)[1]? = some "__proto__".toList ∧
    (((split ',' "1,x".toList)[1]?).map trim).getD [] = "x".toList ∧
    Row.get (buildRow (parseHeaders "id,__proto__".toList) "1,x".toList) "__proto__".toList
      = none ∧
    buildRow (parseHeaders "id,__proto__".toList) "1,x".toList = [("id".toList, "1".toList)] := by
  decide

/-- C6, amended: for a header line whose trimmed names are pairwise distinct,
the row built from a data line stores, under every trimmed header name other
than `__proto__`, the trimmed field of the same index, or the empty string when
the data line has no such field; its property names are exactly the header
names other than `__proto__`; and it holds nothing else, so fields beyond the
header count appear nowhere. -/
theorem C6_row_pairs_headers_with_fields (headerLine dataLine : Str)
    (hnd : (parseHeaders headerLine).Nodup) :
    (parseHeaders headerLine).length = (split ',' headerLine).length ∧
    (∀ (i : Nat) (h : Str), (parseHeaders headerLine)[i]? = some h → h ≠ protoKey →
      Row.get (buildRow (parseHeaders headerLine) dataLine) h
        = some ((((split ',' dataLine)[i]?).map trim).getD [])) ∧
    (∀ k : Str, k ∈ Row.keys (buildRow (parseHeaders headerLine) dataLine)
      ↔ k ∈ parseHeaders headerLine ∧ k ≠ protoKey) ∧
    (∀ k v : Str, (k, v) ∈ buildRow (parseHeaders headerLine) dataLine →
      ∃ i : Nat, (parseHeaders headerLine)[i]? = some k ∧
        v = (((split ',' dataLine)[i]?).map trim).getD []) := by
  have hget : ∀ (i : Nat) (h : Str), (parseHeaders headerLine)[i]? = some h → h ≠ protoKey →
      Row.get (buildRow (parseHeaders headerLine) dataLine) h
        = some ((((split ',' dataLine)[i]?).map trim).getD []) := by
    intro i h hi hp
    unfold buildRow
    rw [get_forEachHeader _ _ 0 [] i h hnd hi hp, Nat.zero_add, valueAt_parseValues]
  have hkeys : Row.keys (buildRow (parseHeaders headerLine) dataLine)
      = (parseHeaders headerLine).filter (fun h => decide (h ≠ protoKey)) := by
    unfold buildRow
    rw [keys_forEachHeader _ _ 0 [] hnd (by simp [Row.keys])]
    simp [Row.keys]
  have hmem : ∀ k : Str, k ∈ Row.keys (buildRow (parseHeaders headerLine) dataLine)
      ↔ k ∈ parseHeaders headerLine ∧ k ≠ protoKey := by
    intro k
    rw [hkeys, List.mem_filter]
    simp
  refine ⟨by simp [parseHeaders], hget, hmem, ?_⟩
  intro k v hm
  have hk := (hmem k).mp (List.mem_map_of_mem Prod.fst hm)
  obtain ⟨i, hi⟩ := List.getElem?_of_mem hk.1
  refine ⟨i, hi, ?_⟩
  have h1 := hget i k hi hk.2
  have h2 := get_of_mem _ k v (by rw [hkeys]; exact hnd.filter _) hm
  rw [h1] at h2
  exact (Option.some.inj h2).symm

/-- C6 at the two worked examples: a short line is padded with the empty
string, a long line is cut at the header count, and fields are trimmed. -/
theorem C6_witness :
    (parseHeaders "id,name,email".toList).Nodup ∧
    buildRow (parseHeaders "id,name,email".toList) "1,Alice".toList
      = [("id".toList, "1".toList), ("name".toList, "Alice".toList), ("email".toList, [])] ∧
    buildRow (parseHeaders "id,name".toList) "1, Alice ,x,y".toList
      = [("id".toList, "1".toList), ("name".toList, "Alice".toList)] ∧
    Row.get (buildRow (parseHeaders "id,name,email".toList) "1,Alice".toList) "email".toList
      = some ((((split ',' "1,Alice".toList)[2]?).map trim).getD []) ∧
    Row.get (buildRow (parseHeaders "id,name".toList) "1, Alice ,x,y".toList) "name".toList
      = some ((((split ',' "1, Alice ,x,y".toList)[1]?).map trim).getD []) :=
  ⟨by decide, by decide, by decide,
    (C6_row_pairs_headers_with_fields "id,name,email".toList "1,Alice".toList
      (by decide)).2.1 2 "email".toList (by decide) (by decide),
    (C6_row_pairs_headers_with_fields "id,name".toList "1, Alice ,x,y".toList
      (by decide)).2.1 1 "name".toList (by decide) (by decide)⟩

/-- C7, as written, fails for a column named `__proto__`: the item written for
the file `__proto__\n1` has the two metadata fields only, although
`__proto__` is a header column name. -/
theorem C7_counterexample :
    parseHeaders (headerLine protoContent) = ["__proto__".toList] ∧
    putItems (handler (sampleWorld protoContent [] []) sampleEvent).calls
      = [[("uploadedAt".toList, "2024-01-01T00:00:00.000Z".toList),
          ("sourceFile".toList, "in/data.csv".toList)]] := by
  decide

/-- C7, amended: when the fetch succeeds, every item handed to the table store
has as its field set exactly the header column names other than `__proto__`
together with `uploadedAt` and `sourceFile`, and its `sourceFile` is the decoded
object key, also when a header column is itself named `sourceFile`; there is one
such item per data line. -/
theorem C7_item_field_set (w : World) (event : Event) (bucket : Option Str)
    (rawKey key content : Str)
    (hb : readBucket event = .ok bucket) (hr : readRawKey event = .ok rawKey)
    (hk : decodeKey rawKey = .ok key) (hf : w.getObject bucket key = .ok content) :
    (putItems (handler w event).calls).length = (dataLines content).length ∧
    ∀ item ∈ putItems (handler w event).calls,
      (∀ k : Str, k ∈ Row.keys item ↔
        (k ∈ parseHeaders (headerLine content) ∧ k ≠ protoKey)
          ∨ k = "uploadedAt".toList ∨ k = "sourceFile".toList) ∧
      Row.get item "sourceFile".toList = some key := by
  obtain ⟨stamps, ts, outs, hlen, houts, hts, h⟩ :=
    handler_fetched w event bucket rawKey key content hb hr hk hf
  have hitems : putItems (handler w event).calls
      = List.zipWith (makeItem (parseHeaders (headerLine content)) key) stamps
          (dataLines content) := by
    rcases h with ⟨_, hc, _⟩ | ⟨e, _, hc, _⟩ <;>
      rw [hc] <;>
      simp [putItems, putItems_append, putItems_putCalls]
  rw [hitems]
  refine ⟨by simp [hlen], ?_⟩
  intro item hitem
  obtain ⟨stamp, line, _, rfl⟩ := exists_of_mem_zipWith _ _ _ _ hitem
  constructor
  · intro k
    unfold makeItem buildRow
    rw [mem_keys_set, mem_keys_set, mem_keys_forEachHeader]
    have h1 := protoKey_ne_uploadedAt
    have h2 := protoKey_ne_sourceFile
    simp only [Row.keys, List.map_nil, List.not_mem_nil, false_or]
    tauto
  · unfold makeItem
    exact get_set_same _ _ _ protoKey_ne_sourceFile

/-- C7 at the worked example: the two items written, in order, and the result
`recordsProcessed = 2`, `errors = 0`. -/
theorem C7_witness :
    (sampleWorld sampleContent [] []).getObject (some "uploads".toList) "in/data.csv".toList
      = .ok sampleContent ∧
    putItems (handler (sampleWorld sampleContent [] []) sampleEvent).calls
      = [[("id".toList, "1".toList), ("name".toList, "Alice".toList),
          ("uploadedAt".toList, "2024-01-01T00:00:00.000Z".toList),
          ("sourceFile".toList, "in/data.csv".toList)],
         [("id".toList, "2".toList), ("name".toList, "Bob".toList),
          ("uploadedAt".toList, "2024-01-01T00:00:00.000Z".toList),
          ("sourceFile".toList, "in/data.csv".toList)]] ∧
    (handler (sampleWorld sampleContent [] []) sampleEvent).result
      = .ok ⟨200,
          "\x7b\"message\":\"Processing complete\",\"recordsProcessed\":2,\"errors\":0\x7d".toList⟩ ∧
    (putItems (handler (sampleWorld sampleContent [] []) sampleEvent).calls).length
      = (dataLines sampleContent).length :=
  ⟨rfl, by decide, rfl,
    (C7_item_field_set (sampleWorld sampleContent [] []) sampleEvent
      (some "uploads".toList) "in/data.csv".toList "in/data.csv".toList sampleContent
      rfl rfl rfl rfl).1⟩

/-! ## Facts and claim about key decoding -/

theorem decodeWith_lit (lit : Char → Char) (st : Option Pending) (c : Char) (rest : Str)
    (h : c ≠ '%') :
    decodeWith lit st (c :: rest) = onLiteral st (lit c) (decodeWith lit none rest) := by
  match rest with
  | [] => simp only [decodeWith, h, if_false]
  | [d] => simp only [decodeWith, h, if_false]
  | h1 :: h2 :: r => simp only [decodeWith, h, if_false]

theorem decodeWith_escape (lit : Char → Char) (st : Option Pending) (h1 h2 : Char)
    (rest : Str) :
    decodeWith lit st ('%' :: h1 :: h2 :: rest)
      = match octetOf h1 h2 with
        | none => none
        | some octet =>
          match onOctet st octet with
          | .emit ch => (decodeWith lit none rest).map (ch :: ·)
          | .more p => decodeWith lit (some p) rest
          | .bad => none := by
  simp only [decodeWith, if_true]

theorem hexVal_plus_to_space (c : Char) : hexVal (if c = '+' then ' ' else c) = hexVal c := by
  by_cases h : c = '+'
  · subst h; decide
  · simp [h]

theorem plus_to_space_eq_percent (c : Char) :
    ((if c = '+' then ' ' else c) = '%') ↔ c = '%' := by
  by_cases h : c = '+'
  · subst h; decide
  · simp [h]

/-- Replacing `+` before decoding is the same as decoding in one pass and
turning the `+` outside escapes into spaces: a `+` cannot be part of an escape. -/
theorem decodeWith_replacePlus (n : Nat) :
    ∀ (raw : Str) (st : Option Pending), raw.length ≤ n →
      decodeWith id st (replacePlus raw)
        = decodeWith (fun c => if c = '+' then ' ' else c) st raw := by
  induction n with
  | zero =>
    intro raw st h
    cases raw with
    | nil => rfl
    | cons c rest => simp at h
  | succ n ih =>
    intro raw st h
    cases raw with
    | nil => rfl
    | cons c rest =>
      by_cases hc : c = '%'
      · subst hc
        cases rest with
        | nil => rfl
        | cons h1 rest =>
          cases rest with
          | nil => simp [replacePlus, decodeWith]
          | cons h2 rest1 =>
            have ih1 := fun st => ih rest1 st (by simp at h; omega)
            simp only [replacePlus, List.map_cons] at ih1 ⊢
            have hp : (if '%' = '+' then ' ' else '%') = '%' := by decide
            rw [hp, decodeWith_escape, decodeWith_escape]
            simp only [octetOf, hexVal_plus_to_space, ih1]
      · have ih1 := fun st => ih rest st (by simp at h; omega)
        simp only [replacePlus, List.map_cons] at ih1 ⊢
        have hc' : (if c = '+' then ' ' else c) ≠ '%' :=
          fun e => hc ((plus_to_space_eq_percent c).mp e)
        rw [decodeWith_lit _ _ _ _ hc', decodeWith_lit _ _ _ _ hc, ih1]
        rfl

theorem decodeKey_eq_spec (rawKey : Str) :
    decodeKey rawKey
      = match decodeKeySpec rawKey with
        | some k => .ok k
        | none => .error uriError := by
  unfold decodeKey decodeKeySpec decodeURIComponent
  rw [decodeWith_replacePlus rawKey.length rawKey none (Nat.le_refl _)]

theorem hexVal_hexDigit : ∀ d < 16, hexVal (hexDigit d) = some d := by decide

theorem octetOf_hexDigit (b : Nat) (hb : b < 256) :
    octetOf (hexDigit (b / 16)) (hexDigit (b % 16)) = some b := by
  unfold octetOf
  rw [hexVal_hexDigit _ (by omega), hexVal_hexDigit _ (by omega)]
  simp only [Option.some.injEq]
  omega

theorem decodeWith_escapeOctet (lit : Char → Char) (st : Option Pending) (b : Nat)
    (hb : b < 256) (rest : Str) :
    decodeWith lit st (escapeOctet b ++ rest)
      = match onOctet st b with
        | .emit ch => (decodeWith lit none rest).map (ch :: ·)
        | .more p => decodeWith lit (some p) rest
        | .bad => none := by
  unfold escapeOctet
  simp only [List.cons_append, List.nil_append]
  simp only [decodeWith_escape, octetOf_hexDigit b hb]

/-- Decoding the percent-encoded form of a character gives the character back. -/
theorem decodeWith_percentEncode (lit : Char → Char) (c : Char) (rest : Str) :
    decodeWith lit none (percentEncode c ++ rest) = (decodeWith lit none rest).map (c :: ·) := by
  have hv := c.valid
  have hc : Char.ofNat c.toNat = c := Char.ofNat_toNat c
  unfold percentEncode utf8Octets
  simp only [UInt32.isValidChar, Nat.isValidChar] at hv
  have hval : c.val.toNat = c.toNat := rfl
  rw [hval] at hv
  generalize c.toNat = n at hv hc
  by_cases h1 : n < 0x80
  · simp only [h1, if_true, List.map_cons, List.map_nil, List.flatten_cons, List.flatten_nil,
      List.append_nil]
    rw [decodeWith_escapeOctet _ _ _ (by omega)]
    simp [onOctet, h1, hc]
  · by_cases h2 : n < 0x800
    · simp only [h1, h2, if_true, if_false, List.map_cons, List.map_nil, List.flatten_cons,
        List.flatten_nil, List.append_nil, List.append_assoc]
      rw [decodeWith_escapeOctet _ _ _ (by omega)]
      have e1 : onOctet none (0xC0 + n / 64) = .more ⟨1, n / 64, 2⟩ := by
        have e : (0xC0 + n / 64) % 32 = n / 64 := by omega
        unfold onOctet
        simp only []
        rw [if_neg (by omega), if_pos (by omega), e]
      rw [e1]
      simp only []
      rw [decodeWith_escapeOctet _ _ _ (by omega)]
      have e2 : onOctet (some ⟨1, n / 64, 2⟩) (0x80 + n % 64) = .emit (Char.ofNat n) := by
        unfold onOctet
        simp only []
        rw [if_pos (by omega), if_pos (by omega)]
        have : n / 64 * 64 + (0x80 + n % 64) % 64 = n := by omega
        rw [this, if_pos (by simp [validCodePoint]; omega)]
      rw [e2, hc]
    · by_cases h3 : n < 0x10000
      · simp only [h1, h2, h3, if_true, if_false, List.map_cons, List.map_nil,
          List.flatten_cons, List.flatten_nil, List.append_nil, List.append_assoc]
        rw [decodeWith_escapeOctet _ _ _ (by omega)]
        have e1 : onOctet none (0xE0 + n / 4096) = .more ⟨2, n / 4096, 3⟩ := by
          have e : (0xE0 + n / 4096) % 16 = n / 4096 := by omega
          unfold onOctet
          simp only []
          rw [if_neg (by omega), if_neg (by omega), if_pos (by omega), e]
        rw [e1]
        simp only []
        rw [decodeWith_escapeOctet _ _ _ (by omega)]
        have e2 : onOctet (some ⟨2, n / 4096, 3⟩) (0x80 + n / 64 % 64)
            = .more ⟨1, n / 64, 3⟩ := by
          have e : n / 4096 * 64 + (0x80 + n / 64 % 64) % 64 = n / 64 := by omega
          unfold onOctet
          simp only []
          rw [if_pos (by omega), if_neg (by omega), e]
        rw [e2]
        simp only []
        rw [decodeWith_escapeOctet _ _ _ (by omega)]
        have e3 : onOctet (some ⟨1, n / 64, 3⟩) (0x80 + n % 64) = .emit (Char.ofNat n) := by
          have e : n / 64 * 64 + (0x80 + n % 64) % 64 = n := by omega
          unfold onOctet
          simp only []
          rw [if_pos (by omega), if_pos (by omega), e,
            if_pos (by simp [validCodePoint]; omega)]
        rw [e3, hc]
      · simp only [h1, h2, h3, if_false, List.map_cons, List.map_nil,
          List.flatten_cons, List.flatten_nil, List.append_nil, List.append_assoc]
        rw [decodeWith_escapeOctet _ _ _ (by omega)]
        have e1 : onOctet none (0xF0 + n / 262144) = .more ⟨3, n / 262144, 4⟩ := by
          have e : (0xF0 + n / 262144) % 8 = n / 262144 := by omega
          unfold onOctet
          simp only []
          rw [if_neg (by omega), if_neg (by omega), if_neg (by omega), if_pos (by omega), e]
        rw [e1]
        simp only []
        rw [decodeWith_escapeOctet _ _ _ (by omega)]
        have e2 : onOctet (some ⟨3, n / 262144, 4⟩) (0x80 + n / 4096 % 64)
            = .more ⟨2, n / 4096, 4⟩ := by
          have e : n / 262144 * 64 + (0x80 + n / 4096 % 64) % 64 = n / 4096 := by omega
          unfold onOctet
          simp only []
          rw [if_pos (by omega), if_neg (by omega), e]
        rw [e2]
        simp only []
        rw [decodeWith_escapeOctet _ _ _ (by omega)]
        have e3 : onOctet (some ⟨2, n / 4096, 4⟩) (0x80 + n / 64 % 64)
            = .more ⟨1, n / 64, 4⟩ := by
          have e : n / 4096 * 64 + (0x80 + n / 64 % 64) % 64 = n / 64 := by omega
          unfold onOctet
          simp only []
          rw [if_pos (by omega), if_neg (by omega), e]
        rw [e3]
        simp only []
        rw [decodeWith_escapeOctet _ _ _ (by omega)]
        have e4 : onOctet (some ⟨1, n / 64, 4⟩) (0x80 + n % 64) = .emit (Char.ofNat n) := by
          have e : n / 64 * 64 + (0x80 + n % 64) % 64 = n := by omega
          unfold onOctet
          simp only []
          rw [if_pos (by omega), if_pos (by omega), e,
            if_pos (by simp [validCodePoint]; omega)]
        rw [e4, hc]

/-- A raw key written piece by piece decodes piece by piece. -/
theorem decodeKeySpec_rawKeyOf (pieces : List KeyPiece)
    (h : KeyPiece.plain '%' ∉ pieces) :
    decodeKeySpec (rawKeyOf pieces) = some (pieces.map KeyPiece.decoded) := by
  induction pieces with
  | nil => rfl
  | cons p ps ih =>
    have ih' := ih (fun hc => h (List.mem_cons_of_mem _ hc))
    unfold decodeKeySpec rawKeyOf at ih' ⊢
    cases p with
    | plain c =>
      have hc : c ≠ '%' := fun e => h (e ▸ List.mem_cons_self _ _)
      simp only [List.map_cons, List.flatten_cons, KeyPiece.raw, List.singleton_append]
      rw [decodeWith_lit _ _ _ _ hc, ih']
      rfl
    | escaped c =>
      simp only [List.map_cons, List.flatten_cons, KeyPiece.raw]
      rw [decodeWith_percentEncode, ih']
      rfl

/-- C8: the key used for the fetch and for `sourceFile` is the raw key read in
one pass in which every percent-escape is decoded and every `+` outside an
escape becomes a space; in particular a raw key written character by
character, each as itself (but not `%`) or percent-encoded, gives those
characters with the plain `+` turned into spaces, so `%2B` stays a `+`. -/
theorem C8_key_is_raw_key_unplussed_and_unescaped (w : World) (event : Event)
    (bucket : Option Str) (rawKey key : Str)
    (hb : readBucket event = .ok bucket) (hr : readRawKey event = .ok rawKey)
    (hv : decodeKeySpec rawKey = some key) :
    decodeKey rawKey = .ok key ∧
    (handler w event).calls.head? = some (Call.getObject bucket key) ∧
    (∀ item ∈ putItems (handler w event).calls,
      Row.get item "sourceFile".toList = some key) ∧
    (∀ pieces : List KeyPiece, KeyPiece.plain '%' ∉ pieces → rawKey = rawKeyOf pieces →
      key = pieces.map KeyPiece.decoded) := by
  have hk : decodeKey rawKey = .ok key := by rw [decodeKey_eq_spec, hv]
  refine ⟨hk, ?_, ?_, ?_⟩
  · cases hf : w.getObject bucket key with
    | error e =>
      rw [(handler_fetch_failed w event bucket rawKey key e hb hr hk hf).1]
      rfl
    | ok content =>
      obtain ⟨stamps, ts, outs, hlen, houts, hts, h⟩ :=
        handler_fetched w event bucket rawKey key content hb hr hk hf
      rcases h with ⟨_, hc, _⟩ | ⟨e, _, hc, _⟩ <;>
        rw [hc] <;> rfl
  · cases hf : w.getObject bucket key with
    | error e =>
      rw [(handler_fetch_failed w event bucket rawKey key e hb hr hk hf).1]
      intro item hitem
      simp [putItems] at hitem
    | ok content =>
      obtain ⟨stamps, _, hitems⟩ :=
        putItems_of_fetched w event bucket rawKey key content hb hr hk hf
      rw [hitems]
      intro item hitem
      obtain ⟨stamp, line, _, rfl⟩ := exists_of_mem_zipWith _ _ _ _ hitem
      unfold makeItem
      exact get_set_same _ _ _ protoKey_ne_sourceFile
  · intro pieces hp hraw
    rw [hraw, decodeKeySpec_rawKeyOf pieces hp] at hv
    exact (Option.some.inj hv).symm

/-- C8 at the worked example: `in%2Bfolder/a+b.csv` gives `in+folder/a b.csv`. -/
theorem C8_witness :
    readRawKey (s3Event "uploads".toList encodedKey) = .ok encodedKey ∧
    decodeKeySpec encodedKey = some "in+folder/a b.csv".toList ∧
    encodedKey = rawKeyOf encodedKeyPieces ∧
    encodedKeyPieces.map KeyPiece.decoded = "in+folder/a b.csv".toList ∧
    decodeKey encodedKey = .ok "in+folder/a b.csv".toList ∧
    (handler (sampleWorld sampleContent [] []) (s3Event "uploads".toList encodedKey)).calls.head?
      = some (Call.getObject (some "uploads".toList) "in+folder/a b.csv".toList) :=
  have h := C8_key_is_raw_key_unplussed_and_unescaped (sampleWorld sampleContent [] [])
    (s3Event "uploads".toList encodedKey) (some "uploads".toList) encodedKey
    "in+folder/a b.csv".toList rfl rfl (by decide)
  ⟨rfl, by decide, by decide, by decide, h.1, h.2.1⟩

/-! ## Trimming and line endings -/

theorem isWhiteSpace_cr : isWhiteSpace '\r' = true := by decide

theorem isWhiteSpace_lf : isWhiteSpace '\n' = true := by decide

theorem trim_concat_ws (l : Str) (x : Char) (hx : isWhiteSpace x = true) :
    trim (l ++ [x]) = trim l := by
  unfold trim
  induction l with
  | nil => simp [List.dropWhile, hx]
  | cons a l ih =>
    by_cases ha : isWhiteSpace a = true
    · simpa [List.dropWhile, ha] using ih
    · have h1 : (a :: (l ++ [x])).dropWhile isWhiteSpace = (a :: l) ++ [x] := by
        simp [List.dropWhile, ha]
      have h2 : (a :: l).dropWhile isWhiteSpace = a :: l := by
        simp [List.dropWhile, ha]
      rw [List.cons_append, h1, h2, List.rdropWhile_concat_pos _ _ _ hx]

theorem trim_of_all_ws (s : Str) (h : ∀ c ∈ s, isWhiteSpace c = true) : trim s = [] := by
  unfold trim
  have : s.dropWhile isWhiteSpace = [] := by
    rw [List.dropWhile_eq_nil_iff]
    exact h
  rw [this]
  rfl

theorem trim_getLast (s : Str) (c : Char) (h : (trim s).getLast? = some c) :
    isWhiteSpace c = false := by
  unfold trim at h
  have hne : (s.dropWhile isWhiteSpace).rdropWhile isWhiteSpace ≠ [] := by
    intro e
    rw [e] at h
    simp at h
  have := List.rdropWhile_last_not isWhiteSpace _ hne
  rw [List.getLast?_eq_getLast _ hne] at h
  cases h
  simpa using this

theorem toCRLF_append (a b : Str) : toCRLF (a ++ b) = toCRLF a ++ toCRLF b := by
  induction a with
  | nil => rfl
  | cons c a ih =>
    by_cases hc : c = '\n' <;> simp [toCRLF, hc, ih]

theorem dropWhile_toCRLF (s : Str) :
    (toCRLF s).dropWhile isWhiteSpace = toCRLF (s.dropWhile isWhiteSpace) := by
  induction s with
  | nil => rfl
  | cons c s ih =>
    by_cases hc : c = '\n'
    · subst hc
      simp [toCRLF, List.dropWhile, isWhiteSpace_cr, isWhiteSpace_lf, ih]
    · by_cases hw : isWhiteSpace c = true
      · simp [toCRLF, hc, List.dropWhile, hw, ih]
      · simp [toCRLF, hc, List.dropWhile, hw]

theorem rdropWhile_toCRLF (s : Str) :
    (toCRLF s).rdropWhile isWhiteSpace = toCRLF (s.rdropWhile isWhiteSpace) := by
  induction s using List.reverseRecOn with
  | nil => rfl
  | append_singleton l x ih =>
    rw [toCRLF_append]
    by_cases hc : x = '\n'
    · subst hc
      have h1 : toCRLF ['\n'] = ['\r', '\n'] := rfl
      have h2 : toCRLF l ++ ['\r', '\n'] = (toCRLF l ++ ['\r']) ++ ['\n'] := by simp
      rw [h1, List.rdropWhile_concat_pos _ _ _ isWhiteSpace_lf, h2,
        List.rdropWhile_concat_pos _ _ _ isWhiteSpace_lf,
        List.rdropWhile_concat_pos _ _ _ isWhiteSpace_cr, ih]
    · have h1 : toCRLF [x] = [x] := by simp [toCRLF, hc]
      rw [h1]
      by_cases hw : isWhiteSpace x = true
      · rw [List.rdropWhile_concat_pos _ _ _ hw, List.rdropWhile_concat_pos _ _ _ hw, ih]
      · rw [List.rdropWhile_concat_neg _ _ _ hw, List.rdropWhile_concat_neg _ _ _ hw,
          toCRLF_append, h1]

theorem trim_toCRLF (s : Str) : trim (toCRLF s) = toCRLF (trim s) := by
  unfold trim
  rw [dropWhile_toCRLF, rdropWhile_toCRLF]

/-- Appending a character other than the separator extends the last piece. -/
theorem split_concat (sep x : Char) (hx : x ≠ sep) (l : Str) :
    ∃ init last, split sep l = init ++ [last] ∧ split sep (l ++ [x]) = init ++ [last ++ [x]] := by
  induction l with
  | nil => exact ⟨[], [], by simp [split], by simp [split, hx]⟩
  | cons c l ih =>
    obtain ⟨init, last, h1, h2⟩ := ih
    by_cases hc : c = sep
    · exact ⟨[] :: init, last, by simp [split, hc, h1], by simp [split, hc, h2]⟩
    · cases init with
      | nil =>
        refine ⟨[], c :: last, ?_, ?_⟩
        · rw [split, if_neg hc, h1]
          rfl
        · rw [List.cons_append, split, if_neg hc, h2]
          rfl
      | cons f init =>
        refine ⟨(c :: f) :: init, last, ?_, ?_⟩
        · rw [split, if_neg hc, h1]
          rfl
        · rw [List.cons_append, split, if_neg hc, h2]
          rfl

theorem parseValues_concat_cr (l : Str) : parseValues (l ++ ['\r']) = parseValues l := by
  obtain ⟨init, last, h1, h2⟩ := split_concat ',' '\r' (by decide) l
  unfold parseValues
  rw [h1, h2]
  simp [trim_concat_ws _ _ isWhiteSpace_cr]

/-- Splitting the CRLF form on line feeds gives the same lines, each possibly
followed by a carriage return. -/
theorem split_toCRLF (s : Str) :
    List.Forall₂ (fun l' l => l' = l ∨ l' = l ++ ['\r'])
      (split '\n' (toCRLF s)) (split '\n' s) := by
  induction s with
  | nil => simp [toCRLF, split]
  | cons c s ih =>
    by_cases hc : c = '\n'
    · subst hc
      have h1 : split '\n' (toCRLF ('\n' :: s)) = ['\r'] :: split '\n' (toCRLF s) := by
        simp [toCRLF, split]
      have h2 : split '\n' ('\n' :: s) = [] :: split '\n' s := by simp [split]
      rw [h1, h2]
      exact List.Forall₂.cons (Or.inr rfl) ih
    · simp only [toCRLF, hc, if_false, split]
      cases h1 : split '\n' (toCRLF s) with
      | nil => exact absurd h1 (split_ne_nil _ _)
      | cons a as =>
        cases h2 : split '\n' s with
        | nil => exact absurd h2 (split_ne_nil _ _)
        | cons b bs =>
          rw [h1, h2] at ih
          cases ih with
          | cons hab hrest =>
            refine List.Forall₂.cons ?_ hrest
            rcases hab with h | h
            · exact Or.inl (by rw [h])
            · exact Or.inr (by rw [h]; rfl)

theorem parseValues_splitLines_toCRLF (content : Str) :
    (splitLines (toCRLF content)).map parseValues = (splitLines content).map parseValues := by
  unfold splitLines
  rw [trim_toCRLF]
  have h := split_toCRLF (trim content)
  generalize split '\n' (toCRLF (trim content)) = crlfLines at h
  generalize split '\n' (trim content) = lfLines at h
  induction h with
  | nil => rfl
  | cons hab _ ih =>
    simp only [List.map_cons, ih]
    rcases hab with h | h
    · rw [h]
    · rw [h, parseValues_concat_cr]

/-! ## Claims about blank content and line endings -/

/-- C9, as written, fails on the header set: for the empty content, and for a
content of blanks, the header set is not empty but holds one column whose name
is the empty string. -/
theorem C9_counterexample :
    ([] : Str).all isWhiteSpace = true ∧
    parseHeaders (headerLine []) = [[]] ∧
    parseHeaders (headerLine []) ≠ [] ∧
    blankContent.all isWhiteSpace = true ∧
    parseHeaders (headerLine blankContent) ≠ [] := by
  decide

/-- C9, amended: for a fetched content that is empty or all whitespace, the
header set is one column with the empty name, there is no data line, no
table-store write is attempted, the success-shaped notification reporting zero
records and no error is published right after the fetch, and when that publish
is accepted the handler makes no other call and returns status 200 with a body
whose `recordsProcessed` and `errors` are both 0. -/
theorem C9_blank_content_is_a_silent_no_op (w : World) (event : Event) (bucket : Option Str)
    (rawKey key content : Str)
    (hb : readBucket event = .ok bucket) (hr : readRawKey event = .ok rawKey)
    (hk : decodeKey rawKey = .ok key) (hf : w.getObject bucket key = .ok content)
    (hws : ∀ c ∈ content, isWhiteSpace c = true) :
    parseHeaders (headerLine content) = [[]] ∧
    dataLines content = [] ∧
    putItems (handler w event).calls = [] ∧
    (∃ message : Str,
      message
        = "\nCSV Processing Complete!\n\nFile: ".toList ++ key
          ++ "\nBucket: ".toList ++ bucket.getD "undefined".toList
          ++ "\nRecords Processed: 0\nErrors: 0\nTimestamp: ".toList
          ++ w.now [Call.getObject bucket key]
          ++ "\n\nAll records processed successfully!\n        ".toList ∧
      [Call.getObject bucket key,
        Call.publish (SNS_TOPIC_ARN w) ("CSV Processing: ".toList ++ key) message]
          <+: (handler w event).calls ∧
      (w.publish [Call.getObject bucket key] (SNS_TOPIC_ARN w)
          ("CSV Processing: ".toList ++ key) message = none →
        (handler w event).calls
          = [Call.getObject bucket key,
              Call.publish (SNS_TOPIC_ARN w) ("CSV Processing: ".toList ++ key) message] ∧
        (handler w event).result
          = .ok ⟨200,
              "\x7b\"message\":\"Processing complete\",\"recordsProcessed\":0,\"errors\":0\x7d".toList⟩)) := by
  have hlines : splitLines content = [[]] := by
    unfold splitLines
    rw [trim_of_all_ws content hws]
    rfl
  have hhead : headerLine content = [] := by
    unfold headerLine
    rw [hlines]
    rfl
  have hdata : dataLines content = [] := by
    unfold dataLines
    rw [hlines]
    rfl
  obtain ⟨stamps, ts, outs, hlen, houts, hts, h⟩ :=
    handler_fetched w event bucket rawKey key content hb hr hk hf
  rw [hdata] at hlen houts hts h
  have hst : stamps = [] := List.length_eq_zero.mp hlen
  subst hst
  have ho : outs = [] := houts
  subst ho
  have hts' : ts = w.now [Call.getObject bucket key] := hts
  subst hts'
  have hm : notificationMessage key bucket 0 [] (w.now [Call.getObject bucket key])
      = "\nCSV Processing Complete!\n\nFile: ".toList ++ key
          ++ "\nBucket: ".toList ++ bucket.getD "undefined".toList
          ++ "\nRecords Processed: 0\nErrors: 0\nTimestamp: ".toList
          ++ w.now [Call.getObject bucket key]
          ++ "\n\nAll records processed successfully!\n        ".toList := by
    have h0 : (Nat.repr 0).data = ['0'] := by decide
    rw [notificationMessage_literal]
    simp [h0]
  have hr0 : successResponse 0 []
      = ⟨200,
          "\x7b\"message\":\"Processing complete\",\"recordsProcessed\":0,\"errors\":0\x7d".toList⟩ := by
    decide
  simp only [putCalls, List.zipWith_nil_left, List.append_nil, countOk, List.filter_nil,
    List.length_nil, expectedErrors, hm, hr0] at h
  refine ⟨by rw [hhead]; rfl, hdata, ?_, _, rfl, ?_, ?_⟩
  · rcases h with ⟨_, hc, _⟩ | ⟨e, _, hc, _⟩ <;>
      rw [hc] <;> rfl
  · rcases h with ⟨_, hc, _⟩ | ⟨e, _, hc, _⟩ <;>
      rw [hc]
    · exact List.prefix_refl _
    · exact ⟨[_], rfl⟩
  · intro hacc
    rcases h with ⟨_, hc, hres⟩ | ⟨e, hp, _, _⟩
    · exact ⟨hc, hres⟩
    · have hp' := hp
      simp only [successSubject] at hp'
      rw [hacc] at hp'
      cases hp'

/-- C9 at a content of blanks and line breaks only. -/
theorem C9_witness :
    (sampleWorld blankContent [] []).getObject (some "uploads".toList) "in/data.csv".toList
      = .ok blankContent ∧
    blankContent.all isWhiteSpace = true ∧
    parseHeaders (headerLine blankContent) = [[]] ∧
    dataLines blankContent = [] ∧
    putItems (handler (sampleWorld blankContent [] []) sampleEvent).calls = [] ∧
    publishSubjects (handler (sampleWorld blankContent [] []) sampleEvent).calls
      = ["CSV Processing: in/data.csv".toList] ∧
    (handler (sampleWorld blankContent [] []) sampleEvent).result
      = .ok ⟨200,
          "\x7b\"message\":\"Processing complete\",\"recordsProcessed\":0,\"errors\":0\x7d".toList⟩ :=
  have h := C9_blank_content_is_a_silent_no_op (sampleWorld blankContent [] []) sampleEvent
    (some "uploads".toList) "in/data.csv".toList "in/data.csv".toList blankContent
    rfl rfl rfl rfl (by decide)
  ⟨rfl, by decide, h.1, h.2.1, h.2.2.1, by decide, rfl⟩

/-- C10: turning every line feed of a content into carriage return + line
feed changes neither the header names, nor the number of data lines, nor the
row built from any data line; and no header name or field value ends in a
carriage return. -/
theorem C10_crlf_content_parses_like_lf_content (content : Str) :
    parseHeaders (headerLine (toCRLF content)) = parseHeaders (headerLine content) ∧
    (dataLines (toCRLF content)).length = (dataLines content).length ∧
    (∀ headers : List Str,
      (dataLines (toCRLF content)).map (buildRow headers)
        = (dataLines content).map (buildRow headers)) ∧
    (∀ h ∈ parseHeaders (headerLine (toCRLF content)), h.getLast? ≠ some '\r') ∧
    (∀ line ∈ dataLines (toCRLF content), ∀ v ∈ parseValues line,
      v.getLast? ≠ some '\r') := by
  have h := parseValues_splitLines_toCRLF content
  rw [splitLines_eq_cons, splitLines_eq_cons, List.map_cons, List.map_cons] at h
  obtain ⟨hhead, htail⟩ := List.cons.inj h
  have hcr : ∀ (line : Str), ∀ v ∈ parseValues line, v.getLast? ≠ some '\r' := by
    intro line v hv hlast
    unfold parseValues at hv
    obtain ⟨f, _, rfl⟩ := List.mem_map.mp hv
    have := trim_getLast f '\r' hlast
    rw [isWhiteSpace_cr] at this
    cases this
  refine ⟨hhead, ?_, ?_, hcr _, fun line _ => hcr line⟩
  · have := congrArg List.length htail
    simpa using this
  · intro headers
    have := congrArg (List.map (fun vs => forEachHeader vs headers 0 [])) htail
    simpa [List.map_map, Function.comp, buildRow] using this

end CsvLambda
